import Mathlib

/-!
# Shipper strategy executor

A shallow embedding of `pkg/controller/strategy/executor.go` together with the
parts of `pkg/apis/shipper/v1/types.go` it reads.

Conventions of the embedding:

* Go `int` / `uint` are 64 bit.  A value of type `int` is an `Int`, a value of
  type `uint` is a `Nat`; the conversions `uint(x)` and `int(x)` are `toUint`
  and `toInt` and wrap modulo `2^64`.
* A Go result pair `([]ExecutorResult, error)` is a pair
  `List ExecutorResult × Option ExecError`; a `nil` slice is `[]`, a `nil`
  error is `none`.  Nothing in the type prevents an error from coming together
  with patches.
* A pointer that the code dereferences unconditionally (`s.contender`,
  `release`, the three targets) is a plain value; `s.incumbent`, which the code
  tests against `nil`, is an `Option`.
* Logging (`s.info`) and the recorder event (`s.event`) do not influence the
  returned values and are left out.
* The functions `getStrategy`, `getStrategyStep`, `checkInstallation`,
  `checkCapacity`, `checkTraffic` and the four comparison policies are called by
  the executor but defined in other files of the package.  The executor is
  therefore parameterised by a record `Helpers` that supplies them; `specHelpers`
  is the instance that follows the written specification.
-/

namespace Shipper

/-! ## Machine integers -/

/-- Conversion `uint(x)` of a Go `int` on a 64 bit platform. -/
def toUint (x : Int) : Nat := (x % (2 : Int) ^ 64).toNat

/-- Conversion `int(x)` of a Go `uint` on a 64 bit platform. -/
def toInt (x : Nat) : Int :=
  if x % 2 ^ 64 < 2 ^ 63 then ((x % 2 ^ 64 : Nat) : Int)
  else ((x % 2 ^ 64 : Nat) : Int) - (2 : Int) ^ 64

/-- The values a Go `int` can hold. -/
def inIntRange (x : Int) : Prop := -(2 : Int) ^ 63 ≤ x ∧ x < (2 : Int) ^ 63

instance (x : Int) : Decidable (inIntRange x) := by
  unfold inIntRange; exact inferInstance

/-! ## Errors -/

/-- The two failure kinds of `strconv` (`ErrSyntax`, `ErrRange`). -/
inductive NumErrorKind where
  | ErrSyntax
  | ErrRange
  deriving DecidableEq

/-- Errors that travel through the executor: a `*strconv.NumError` produced by
`strconv.Atoi`, or the error of `getStrategyStep` for an index that does not
resolve. -/
inductive ExecError where
  | NumError (func : String) (num : String) (err : NumErrorKind)
  | OutOfRangeStep (index : Int) (len : Nat)
  deriving DecidableEq

/-! ## `strconv.Atoi` -/

/-- The largest `uint64` (`maxUint64` of `strconv`). -/
def maxUint64 : Nat := 2 ^ 64 - 1

/-- The digit loop of `strconv.ParseUint(s, 10, 64)` with `n` accumulated so
far.  Byte by byte: a byte that is not in `'0'..'9'` is a syntax error; then
`n >= cutoff` (`n * 10` overflows) and `n * 10 + d > maxVal` (the sum
overflows) are range errors.  The first failing byte decides the error. -/
def parseUint : List Char → Nat → Except NumErrorKind Nat
  | [], n => .ok n
  | c :: cs, n =>
    if !c.isDigit then .error .ErrSyntax
    else if n ≥ maxUint64 / 10 + 1 then .error .ErrRange
    else if n * 10 + (c.toNat - '0'.toNat) > maxUint64 then .error .ErrRange
    else parseUint cs (n * 10 + (c.toNat - '0'.toNat))

/-- Go's `strconv.Atoi` for a 64 bit `int`, along its general path
`ParseInt(s, 10, 0)`: an optional sign is picked off, `ParseUint` reads the
rest, a syntax error is returned as it is, and a value that does not fit
(`un >= 2^63` without sign, `un > 2^63` with a minus sign, or a range error of
`ParseUint`) is a range error.  Every error is a `NumError` with `Func` set to
`Atoi` and `Num` to the whole input.  The fast path of `Atoi` for inputs
shorter than 19 bytes returns the same results. -/
def atoi (s : String) : Except ExecError Int :=
  let body : Bool × List Char :=
    match s.toList with
    | '-' :: rest => (true, rest)
    | '+' :: rest => (false, rest)
    | cs => (false, cs)
  if body.2.isEmpty then .error (.NumError "Atoi" s .ErrSyntax)
  else
    match parseUint body.2 0 with
    | .error kind => .error (.NumError "Atoi" s kind)
    | .ok un =>
      if !body.1 ∧ un ≥ 2 ^ 63 then .error (.NumError "Atoi" s .ErrRange)
      else if body.1 ∧ un > 2 ^ 63 then .error (.NumError "Atoi" s .ErrRange)
      else .ok (if body.1 then -(un : Int) else (un : Int))

/-- A decimal integer literal: an optional sign followed by one or more decimal
digits. -/
def isDecimalInteger (s : String) : Bool :=
  let body : List Char :=
    match s.toList with
    | '-' :: rest => rest
    | '+' :: rest => rest
    | cs => cs
  !body.isEmpty && body.all Char.isDigit

/-! ## API types (`pkg/apis/shipper/v1`) -/

structure StrategyStep where
  IncumbentCapacity : String
  IncumbentTraffic : String
  ContenderCapacity : String
  ContenderTraffic : String
  deriving DecidableEq

structure StrategySpec where
  Steps : List StrategyStep
  deriving DecidableEq

structure Strategy where
  Spec : StrategySpec
  deriving DecidableEq

structure ReleaseSpec where
  TargetStep : Int
  deriving DecidableEq

/-- The status record the executor reads and writes
(`v1.ReleaseStatus{AchievedStep, Phase}`). -/
structure ReleaseStatus where
  AchievedStep : Nat
  Phase : String
  deriving DecidableEq

structure EmbeddedShipmentOrder where
  Strategy : String
  deriving DecidableEq

structure ReleaseEnvironment where
  ShipmentOrder : EmbeddedShipmentOrder
  deriving DecidableEq

structure Release where
  Name : String
  Environment : ReleaseEnvironment
  Spec : ReleaseSpec
  Status : ReleaseStatus
  deriving DecidableEq

structure ClusterInstallationStatus where
  Name : String
  Status : String
  deriving DecidableEq

structure InstallationTargetStatus where
  Clusters : List ClusterInstallationStatus
  deriving DecidableEq

structure InstallationTargetSpec where
  Clusters : List String
  deriving DecidableEq

structure InstallationTarget where
  Spec : InstallationTargetSpec
  Status : InstallationTargetStatus
  deriving DecidableEq

structure ClusterCapacityStatus where
  Name : String
  AchievedReplicas : Nat
  Status : String
  deriving DecidableEq

structure CapacityTargetStatus where
  Clusters : List ClusterCapacityStatus
  deriving DecidableEq

structure ClusterCapacityTarget where
  Name : String
  Replicas : Nat
  deriving DecidableEq

structure CapacityTargetSpec where
  Clusters : List ClusterCapacityTarget
  deriving DecidableEq

structure CapacityTarget where
  Spec : CapacityTargetSpec
  Status : CapacityTargetStatus
  deriving DecidableEq

structure ClusterTrafficStatus where
  Name : String
  AchievedTraffic : Nat
  Status : String
  deriving DecidableEq

structure TrafficTargetStatus where
  Clusters : List ClusterTrafficStatus
  deriving DecidableEq

structure ClusterTrafficTarget where
  Name : String
  TargetTraffic : Nat
  deriving DecidableEq

structure TrafficTargetSpec where
  Clusters : List ClusterTrafficTarget
  deriving DecidableEq

structure TrafficTarget where
  Spec : TrafficTargetSpec
  Status : TrafficTargetStatus
  deriving DecidableEq

/-- Modelled from the spec: the constant `v1.ReleasePhaseInstalled`, whose
declaration lies in another file; the specification names the phase
`Installed`. -/
def ReleasePhaseInstalled : String := "Installed"

/-- Modelled from the spec: the constant `v1.ReleasePhaseWaitingForCommand`,
whose declaration lies in another file; the specification names the
phase `WaitingForCommand`. -/
def ReleasePhaseWaitingForCommand : String := "WaitingForCommand"

/-- Modelled from the spec: the constant `v1.ReleasePhaseSuperseded`, whose
declaration lies in another file; the specification names the phase
`Superseded`. -/
def ReleasePhaseSuperseded : String := "Superseded"

/-! ## Executor types (`pkg/controller/strategy`) -/

structure releaseInfo where
  release : Release
  installationTarget : InstallationTarget
  trafficTarget : TrafficTarget
  capacityTarget : CapacityTarget
  deriving DecidableEq

structure Executor where
  contender : releaseInfo
  incumbent : Option releaseInfo
  deriving DecidableEq

/-- The patch variants the executor builds: `ReleaseUpdateResult`,
`CapacityTargetOutdatedResult` and `TrafficTargetOutdatedResult`, each with the
fields the executor fills in. -/
inductive ExecutorResult where
  | ReleaseUpdateResult (NewStatus : ReleaseStatus) (Name : String)
  | CapacityTargetOutdatedResult (NewSpec : CapacityTargetSpec) (Name : String)
  | TrafficTargetOutdatedResult (NewSpec : TrafficTargetSpec) (Name : String)
  deriving DecidableEq

namespace ExecutorResult

/-- The release a patch is addressed to. -/
def name : ExecutorResult → String
  | ReleaseUpdateResult _ n => n
  | CapacityTargetOutdatedResult _ n => n
  | TrafficTargetOutdatedResult _ n => n

def isReleaseUpdate : ExecutorResult → Bool
  | ReleaseUpdateResult _ _ => true
  | _ => false

def isCapacityPatch : ExecutorResult → Bool
  | CapacityTargetOutdatedResult _ _ => true
  | _ => false

def isTrafficPatch : ExecutorResult → Bool
  | TrafficTargetOutdatedResult _ _ => true
  | _ => false

end ExecutorResult

/-- A comparison policy `func(achieved uint, desired uint) bool`. -/
abbrev Comparison := Nat → Nat → Bool

/-- The functions and policies the executor calls but does not define. -/
structure Helpers where
  getStrategy : String → Strategy
  getStrategyStep : Strategy → Int → Except ExecError StrategyStep
  checkInstallation : releaseInfo → Bool
  checkCapacity : CapacityTarget → Nat → Comparison → Bool × Option CapacityTargetSpec
  checkTraffic : TrafficTarget → Nat → Comparison → Bool × Option TrafficTargetSpec
  contenderCapacityComparison : Comparison
  contenderTrafficComparison : Comparison
  incumbentCapacityComparison : Comparison
  incumbentTrafficComparison : Comparison

/-! ## The executor (`executor.go`) -/

/-- The method `(*Executor).checkContender`. -/
def checkContender (h : Helpers) (s : Executor) (strategyStep : StrategyStep) :
    Bool × List ExecutorResult × Option ExecError :=
  match atoi strategyStep.ContenderCapacity with
  | .error err => (false, [], some err)
  | .ok capacity =>
    match atoi strategyStep.ContenderTraffic with
    | .error err => (false, [], some err)
    | .ok trafficWeight =>
      match h.checkCapacity s.contender.capacityTarget (toUint capacity)
          h.contenderCapacityComparison with
      | (false, some newSpec) =>
        (false, [.CapacityTargetOutdatedResult newSpec s.contender.release.Name], none)
      | (false, none) => (false, [], none)
      | (true, _) =>
        match h.checkTraffic s.contender.trafficTarget (toUint trafficWeight)
            h.contenderTrafficComparison with
        | (false, some newSpec) =>
          (false, [.TrafficTargetOutdatedResult newSpec s.contender.release.Name], none)
        | (false, none) => (false, [], none)
        | (true, _) => (true, [], none)

/-- The method `(*Executor).checkIncumbent`, which dereferences `s.incumbent`;
`execute` calls it only when the incumbent is present, and the embedding passes
that incumbent as `incumbent`. -/
def checkIncumbent (h : Helpers) (incumbent : releaseInfo) (strategyStep : StrategyStep) :
    Bool × List ExecutorResult × Option ExecError :=
  match atoi strategyStep.IncumbentCapacity with
  | .error err => (false, [], some err)
  | .ok capacity =>
    match atoi strategyStep.IncumbentTraffic with
    | .error err => (false, [], some err)
    | .ok trafficWeight =>
      match h.checkTraffic incumbent.trafficTarget (toUint trafficWeight)
          h.incumbentTrafficComparison with
      | (false, some newSpec) =>
        (false, [.TrafficTargetOutdatedResult newSpec incumbent.release.Name], none)
      | (false, none) => (false, [], none)
      | (true, _) =>
        match h.checkCapacity incumbent.capacityTarget (toUint capacity)
            h.incumbentCapacityComparison with
        | (false, some newSpec) =>
          (false, [.CapacityTargetOutdatedResult newSpec incumbent.release.Name], none)
        | (false, none) => (false, [], none)
        | (true, _) => (true, [], none)

/-- The method `(*Executor).finalizeRelease`.  The parameter `strategyStep` of
the source is unused there and is kept for the signature. -/
def finalizeRelease (s : Executor) (targetStep : Nat) (_strategyStep : StrategyStep)
    (isLastStep : Bool) : List ExecutorResult × Option ExecError :=
  let contenderPhase : String :=
    if isLastStep then ReleasePhaseInstalled else ReleasePhaseWaitingForCommand
  let reportedStep := s.contender.release.Status.AchievedStep
  let reportedPhase := s.contender.release.Status.Phase
  let releasePatches : List ExecutorResult :=
    if targetStep ≠ reportedStep ∨ contenderPhase ≠ reportedPhase then
      [.ReleaseUpdateResult { AchievedStep := targetStep, Phase := contenderPhase }
        s.contender.release.Name]
    else []
  let releasePatches : List ExecutorResult :=
    match s.incumbent with
    | some incumbent =>
      let incumbentPhase : String :=
        if isLastStep then ReleasePhaseSuperseded else ReleasePhaseInstalled
      if incumbentPhase ≠ incumbent.release.Status.Phase then
        releasePatches ++
          [.ReleaseUpdateResult
            { Phase := incumbentPhase, AchievedStep := incumbent.release.Status.AchievedStep }
            incumbent.release.Name]
      else releasePatches
    | none => releasePatches
  (releasePatches, none)

/-- The index of the last step as `execute` computes it:
`len(strategy.Spec.Steps) - 1`, raised to `0` when negative. -/
def lastStepIndex (strategy : Strategy) : Int :=
  let lastStepIndex : Int := (strategy.Spec.Steps.length : Int) - 1
  if lastStepIndex < 0 then 0 else lastStepIndex

/-- The method `(*Executor).execute`. -/
def execute (h : Helpers) (s : Executor) : List ExecutorResult × Option ExecError :=
  let strategy := h.getStrategy s.contender.release.Environment.ShipmentOrder.Strategy
  let targetStep : Nat := toUint s.contender.release.Spec.TargetStep
  match h.getStrategyStep strategy (toInt targetStep) with
  | .error err => ([], some err)
  | .ok strategyStep =>
    if !h.checkInstallation s.contender then ([], none)
    else
      match checkContender h s strategyStep with
      | (_, _, some err) => ([], some err)
      | (false, contenderPatches, none) => (contenderPatches, none)
      | (true, _, none) =>
        let incumbentGate : Option (List ExecutorResult × Option ExecError) :=
          match s.incumbent with
          | some incumbent =>
            match checkIncumbent h incumbent strategyStep with
            | (_, _, some err) => some ([], some err)
            | (false, incumbentPatches, none) => some (incumbentPatches, none)
            | (true, _, none) => none
          | none => none
        match incumbentGate with
        | some result => result
        | none =>
          let isLastStep : Bool := targetStep == toUint (lastStepIndex strategy)
          match finalizeRelease s targetStep strategyStep isLastStep with
          | (_, some err) => ([], some err)
          | (releasePatches, none) => (releasePatches, none)

/-! ## The helpers as the specification describes them -/

/-- Modelled from the spec: `getStrategyStep`, which is defined in another
file of the package.  "Resolve the strategy step at index `TargetStep`.  Fails with an
`OutOfRangeStep` error if the index is negative or ≥ len(steps)." -/
def getStrategyStep (strategy : Strategy) (index : Int) : Except ExecError StrategyStep :=
  if index < 0 ∨ (strategy.Spec.Steps.length : Int) ≤ index then
    .error (.OutOfRangeStep index strategy.Spec.Steps.length)
  else
    match strategy.Spec.Steps.get? index.toNat with
    | some step => .ok step
    | none => .error (.OutOfRangeStep index strategy.Spec.Steps.length)

/-- Modelled from the spec: `checkInstallation`, which is defined in another
file of the package.  "Installation complete requires all clusters report
Installed." -/
def checkInstallation (contender : releaseInfo) : Bool :=
  contender.installationTarget.Status.Clusters.all (fun c => c.Status == "Installed")

/-- Modelled from the spec: the contender comparison policy for capacity, which
is defined in another file of the package.  "Achieved must be ≥ target." -/
def contenderCapacityComparison : Comparison := fun achieved desired => decide (desired ≤ achieved)

/-- Modelled from the spec: the contender comparison policy for traffic, which
is defined in another file of the package.  "The same policy direction (contender
traffic moves up toward the target)." -/
def contenderTrafficComparison : Comparison := fun achieved desired => decide (desired ≤ achieved)

/-- Modelled from the spec: the incumbent comparison policy for capacity, which
is defined in another file of the package.  "Achieved values move down toward the
step's target." -/
def incumbentCapacityComparison : Comparison := fun achieved desired => decide (achieved ≤ desired)

/-- Modelled from the spec: the incumbent comparison policy for traffic, which
is defined in another file of the package.  "Achieved values move down toward the
step's target." -/
def incumbentTrafficComparison : Comparison := fun achieved desired => decide (achieved ≤ desired)

/-- Modelled from the spec: `checkCapacity`, which is defined in another file
of the package.  The achieved capacity across clusters is compared with the target
under the given policy (here: every cluster satisfies it).  "If not achieved,
and the current spec does not already equal the desired target, emit a
CapacityTargetSpecUpdate patch; if the spec already matches the target, report
not-achieved with no patch." -/
def checkCapacity (capacityTarget : CapacityTarget) (stepCapacity : Nat) (compFn : Comparison) :
    Bool × Option CapacityTargetSpec :=
  if capacityTarget.Status.Clusters.all (fun c => compFn c.AchievedReplicas stepCapacity) then
    (true, none)
  else if capacityTarget.Spec.Clusters.all (fun c => c.Replicas == stepCapacity) then
    (false, none)
  else
    (false, some
      { Clusters := capacityTarget.Spec.Clusters.map
          (fun c => { Name := c.Name, Replicas := stepCapacity }) })

/-- Modelled from the spec: `checkTraffic`, which is defined in another file
of the package.  "Traffic check: identical shape" to the capacity check. -/
def checkTraffic (trafficTarget : TrafficTarget) (stepTraffic : Nat) (compFn : Comparison) :
    Bool × Option TrafficTargetSpec :=
  if trafficTarget.Status.Clusters.all (fun c => compFn c.AchievedTraffic stepTraffic) then
    (true, none)
  else if trafficTarget.Spec.Clusters.all (fun c => c.TargetTraffic == stepTraffic) then
    (false, none)
  else
    (false, some
      { Clusters := trafficTarget.Spec.Clusters.map
          (fun c => { Name := c.Name, TargetTraffic := stepTraffic }) })

/-- The helpers as the specification describes them, over a store `strategies`
that resolves a strategy name (`getStrategy`). -/
def specHelpers (strategies : String → Strategy) : Helpers where
  getStrategy := strategies
  getStrategyStep := getStrategyStep
  checkInstallation := checkInstallation
  checkCapacity := checkCapacity
  checkTraffic := checkTraffic
  contenderCapacityComparison := contenderCapacityComparison
  contenderTrafficComparison := contenderTrafficComparison
  incumbentCapacityComparison := incumbentCapacityComparison
  incumbentTrafficComparison := incumbentTrafficComparison

/-! ## Fixtures: the two step strategy of the specification -/

/-- Step 0 of the example strategy: everything at 50. -/
def step0 : StrategyStep :=
  { IncumbentCapacity := "50", IncumbentTraffic := "50",
    ContenderCapacity := "50", ContenderTraffic := "50" }

/-- Step 1 of the example strategy: the contender takes over. -/
def step1 : StrategyStep :=
  { IncumbentCapacity := "0", IncumbentTraffic := "0",
    ContenderCapacity := "100", ContenderTraffic := "100" }

/-- The two step example strategy. -/
def twoSteps : Strategy := { Spec := { Steps := [step0, step1] } }

/-- A strategy store that knows only the example strategy. -/
def fixtureHelpers : Helpers := specHelpers (fun _ => twoSteps)

/-- A release bundle on one cluster `c1`, described by its name, target step,
status, installation status, capacity (spec, achieved) and traffic (spec,
achieved). -/
def mkInfo (name : String) (targetStep : Int) (status : ReleaseStatus) (installed : String)
    (capSpec capAchieved trSpec trAchieved : Nat) : releaseInfo :=
  { release :=
      { Name := name, Environment := { ShipmentOrder := { Strategy := "twoSteps" } },
        Spec := { TargetStep := targetStep }, Status := status }
    installationTarget :=
      { Spec := { Clusters := ["c1"] },
        Status := { Clusters := [{ Name := "c1", Status := installed }] } }
    trafficTarget :=
      { Spec := { Clusters := [{ Name := "c1", TargetTraffic := trSpec }] },
        Status := { Clusters := [{ Name := "c1", AchievedTraffic := trAchieved, Status := "" }] } }
    capacityTarget :=
      { Spec := { Clusters := [{ Name := "c1", Replicas := capSpec }] },
        Status :=
          { Clusters := [{ Name := "c1", AchievedReplicas := capAchieved, Status := "" }] } } }

/-- A one step strategy whose contender capacity is the string `abc`. -/
def abcStrategy : Strategy :=
  { Spec := { Steps := [{ IncumbentCapacity := "50", IncumbentTraffic := "50",
                          ContenderCapacity := "abc", ContenderTraffic := "50" }] } }

/-- A strategy store that knows only `abcStrategy`. -/
def abcHelpers : Helpers := specHelpers (fun _ => abcStrategy)

end Shipper

namespace Shipper

/-! ## Applying status patches -/

/-- Modelled from the spec: the driver's application of returned patches, which
lies outside the executor.  A status patch replaces the status of the release
it names; capacity and traffic patches address other objects and leave the
release unchanged. -/
def applyStatusUpdates (patches : List ExecutorResult) (release : Release) : Release :=
  patches.foldl
    (fun r p =>
      match p with
      | .ReleaseUpdateResult status name => if name = r.Name then { r with Status := status } else r
      | _ => r)
    release

/-- The snapshot after the driver has applied `patches`: the statuses of the
contender and of the incumbent are updated, everything else is identical. -/
def applyPatches (patches : List ExecutorResult) (s : Executor) : Executor :=
  { contender := { s.contender with release := applyStatusUpdates patches s.contender.release }
    incumbent := s.incumbent.map
      (fun incumbent =>
        { incumbent with release := applyStatusUpdates patches incumbent.release }) }

/-! ## Decimal strings -/

/-- The number a list of decimal digits stands for in positional notation. -/
def decimalValue (digits : List Char) : Nat :=
  digits.foldl (fun acc c => acc * 10 + (c.toNat - '0'.toNat)) 0

/-- The string `s` is a decimal string for the integer `n`: an optional sign,
then one or more decimal digits whose positional value is the magnitude of
`n`. -/
def isDecimalStringFor (s : String) (n : Int) : Bool :=
  match s.toList with
  | '-' :: digits =>
    !digits.isEmpty && digits.all Char.isDigit && n == -(decimalValue digits : Int)
  | '+' :: digits =>
    !digits.isEmpty && digits.all Char.isDigit && n == (decimalValue digits : Int)
  | digits =>
    !digits.isEmpty && digits.all Char.isDigit && n == (decimalValue digits : Int)

/-- The decimal digits at the start of `s`, after an optional sign. -/
def digitPrefix (s : String) : List Char :=
  (match s.toList with
    | '-' :: rest => rest
    | '+' :: rest => rest
    | cs => cs).takeWhile Char.isDigit

/-- A step whose contender capacity has twenty digits `9` before a letter. -/
def overflowStep : StrategyStep :=
  { IncumbentCapacity := "50", IncumbentTraffic := "50",
    ContenderCapacity := "99999999999999999999x", ContenderTraffic := "50" }

/-- A strategy store that knows only the one step strategy of `overflowStep`. -/
def overflowHelpers : Helpers := specHelpers (fun _ => { Spec := { Steps := [overflowStep] } })

/-- A step whose contender capacity is `-1`. -/
def minusOneStep : StrategyStep :=
  { IncumbentCapacity := "50", IncumbentTraffic := "50",
    ContenderCapacity := "-1", ContenderTraffic := "50" }

/-- A strategy store that knows only the one step strategy of `minusOneStep`. -/
def minusOneHelpers : Helpers := specHelpers (fun _ => { Spec := { Steps := [minusOneStep] } })

/-- A step whose contender capacity is `-2^63 - 1`. -/
def belowRangeStep : StrategyStep :=
  { IncumbentCapacity := "50", IncumbentTraffic := "50",
    ContenderCapacity := "-9223372036854775809", ContenderTraffic := "50" }

end Shipper

/-! # `shipperctl clean decommissioned-clusters`

A shallow embedding of `cmd/shipperctl/cmd/decommission.go`.  The Kubernetes
and Shipper clients, the helpers of `cmdutil` and `releaseutil` and the
constant `shipper.ReleaseClustersAnnotation` are defined in other packages;
they are the fields of the record `Clients`.  Output written with
`cmd.Printf` is returned as a list of strings. -/

namespace Shipper.Cmd

/-- The struct `ReleaseAndFilteredAnnotations`. -/
structure ReleaseAndFilteredAnnotations where
  OldClusterAnnotation : String
  FilteredClusterAnnotation : String
  Namespace : String
  Name : String
  deriving DecidableEq

/-- A `shipper.Release` as far as `collectReleases` reads it. -/
structure Release where
  Namespace : String
  Name : String
  Annotations : List (String × String)
  deriving DecidableEq

/-- A Go map read `rel.Annotations[key]`: the value, or the empty string when
the key is absent. -/
def Release.annotation (rel : Release) (key : String) : String :=
  (rel.Annotations.lookup key).getD ""

/-- Errors of the command: an error handed over by a client or helper (its
message), or the value of `fmt.Errorf(format)` called without arguments. -/
inductive CmdError where
  | Client (message : String)
  | Errorf (format : String)
  deriving DecidableEq

/-- What `collectReleases` reads from outside the file: the flag variable
`clusters`, the annotation key, the two listings, and the helpers
`releaseutil.GetSelectedClusters`, `cmdutil.FilterSelectedClusters` and
`cmdutil.IsContender`.  A failing call carries the text of `err.Error()`. -/
structure Clients where
  clusters : List String
  ReleaseClustersAnnotation : String
  listNamespaces : Except String (List String)
  listReleases : String → Except String (List Release)
  GetSelectedClusters : Release → List String
  FilterSelectedClusters : List String → List String → List String
  IsContender : Release → Except String Bool

/-- Go's `<` on strings, character by character.  Go compares the bytes of the
UTF-8 encoding, which keeps the order of the characters. -/
def stringLess : List Char → List Char → Bool
  | [], [] => false
  | [], _ :: _ => true
  | _ :: _, [] => false
  | a :: as, b :: bs => if a.toNat < b.toNat then true else if b.toNat < a.toNat then false
    else stringLess as bs

/-- Insert a string into a list sorted in increasing order. -/
def insertString (x : String) : List String → List String
  | [] => [x]
  | y :: ys => if stringLess y.toList x.toList then y :: insertString x ys else x :: y :: ys

/-- Go's `sort.Strings`: the strings in increasing order. -/
def sortStrings : List String → List String
  | [] => []
  | x :: xs => insertString x (sortStrings xs)

/-- Go's `strings.Join`. -/
def stringsJoin (elems : List String) (sep : String) : String :=
  String.intercalate sep elems

/-- The three accumulators of `collectReleases`. -/
structure Collected where
  deleteReleases : List ReleaseAndFilteredAnnotations
  updateAnnotations : List ReleaseAndFilteredAnnotations
  errList : List String
  deriving DecidableEq

/-- One iteration of the inner loop of `collectReleases`, over `rel`. -/
def collectRelease (c : Clients) (acc : Collected) (rel : Release) : Collected :=
  let selectedClusters := c.GetSelectedClusters rel
  let filteredClusters := c.FilterSelectedClusters (c.GetSelectedClusters rel) c.clusters
  if filteredClusters.length > 0 then
    let filteredClusters := sortStrings filteredClusters
    let filteredClusterAnnotation := stringsJoin filteredClusters ","
    if filteredClusterAnnotation = rel.annotation c.ReleaseClustersAnnotation then acc
    else
      { acc with
        updateAnnotations := acc.updateAnnotations ++
          [{ OldClusterAnnotation := stringsJoin selectedClusters ","
             FilteredClusterAnnotation := filteredClusterAnnotation
             Namespace := rel.Namespace
             Name := rel.Name }] }
  else
    match c.IsContender rel with
    | .error err => { acc with errList := acc.errList ++ [err] }
    | .ok isContender =>
      if filteredClusters.length = 0 ∧ !isContender then
        { acc with
          deleteReleases := acc.deleteReleases ++
            [{ OldClusterAnnotation := stringsJoin selectedClusters ","
               FilteredClusterAnnotation := ""
               Namespace := rel.Namespace
               Name := rel.Name }] }
      else acc

/-- One iteration of the outer loop of `collectReleases`, over the namespace
named `ns`. -/
def collectNamespace (c : Clients) (acc : Collected) (ns : String) : Collected :=
  match c.listReleases ns with
  | .error err => { acc with errList := acc.errList ++ [err] }
  | .ok releaseList => releaseList.foldl (collectRelease c) acc

/-- The function `collectReleases`. -/
def collectReleases (c : Clients) :
    List ReleaseAndFilteredAnnotations × List ReleaseAndFilteredAnnotations × Option CmdError :=
  match c.listNamespaces with
  | .error err => ([], [], some (.Client err))
  | .ok namespaceList =>
    let acc := namespaceList.foldl (collectNamespace c) ⟨[], [], []⟩
    (acc.deleteReleases, acc.updateAnnotations, some (.Errorf (stringsJoin acc.errList ",")))

/-- The function `reviewActions`: it prints the two counts and asks for
confirmation (`confirm` is the outcome of `cmdutil.AskForConfirmation`); the
table it then builds is never printed nor returned. -/
def reviewActions (confirm : Except String Bool)
    (deleteReleases updateAnnotations : List ReleaseAndFilteredAnnotations) :
    List String × Option CmdError :=
  let output := ["About to edit " ++ toString updateAnnotations.length ++
    " releases and and delete " ++ toString deleteReleases.length ++ " releases\n"]
  match confirm with
  | .error err => (output, some (.Client err))
  | .ok _ => (output, none)

/-- The function `runCleanCommand`.  `kubeClient` and `shipperClient` are the
outcomes of building the two clients (`none` on success); the result is what
was printed and the returned error. -/
def runCleanCommand (kubeClient shipperClient : Option String) (c : Clients)
    (confirm : Except String Bool) : List String × Option CmdError :=
  match kubeClient with
  | some err => ([], some (.Client err))
  | none =>
    match shipperClient with
    | some err => ([], some (.Client err))
    | none =>
      match collectReleases c with
      | (_, _, some err) => ([], some err)
      | (deleteReleases, updateAnnotations, none) =>
        match reviewActions confirm deleteReleases updateAnnotations with
        | (output, some err) => (output, some err)
        | (output, none) =>
          let errList : List String := []
          if errList.length > 0 then (output, some (.Errorf (stringsJoin errList ",")))
          else (output, none)

/-- The releases the inner loop of `collectReleases` examines: those of every
listed namespace whose release listing succeeds, in order. -/
def examinedReleases (c : Clients) (namespaceList : List String) : List Release :=
  namespaceList.flatMap
    (fun ns =>
      match c.listReleases ns with
      | .ok releaseList => releaseList
      | .error _ => [])

/-- The delete condition in the words of the specification: none of the
selected clusters remains after filtering out the decommissioned clusters, and
the contender lookup succeeds and reports that the release is not a
contender. -/
def specDelete (c : Clients) (rel : Release) : Bool :=
  (c.FilterSelectedClusters (c.GetSelectedClusters rel) c.clusters).isEmpty &&
    match c.IsContender rel with
    | .ok isContender => !isContender
    | .error _ => false

/-- The entry of a deleted release in the words of the specification: its
selected clusters joined by commas, no remaining clusters, its namespace and
name. -/
def specDeleteEntry (c : Clients) (rel : Release) : ReleaseAndFilteredAnnotations :=
  { OldClusterAnnotation := String.intercalate "," (c.GetSelectedClusters rel)
    FilteredClusterAnnotation := ""
    Namespace := rel.Namespace
    Name := rel.Name }

/-- The sorted, comma-joined remaining clusters in the words of the
specification: the clusters that remain after filtering, in increasing order of
the strings, joined by commas.  The order is the linear order of `String`, the
sort is the insertion sort of the library; neither refers to `sortStrings`. -/
def specRemaining (c : Clients) (rel : Release) : String :=
  String.intercalate ","
    ((c.FilterSelectedClusters (c.GetSelectedClusters rel) c.clusters).insertionSort
      (fun a b : String => a ≤ b))

/-- The current clusters annotation in the words of the specification: the
value that the annotations of the release bind to the clusters key, and the
empty string when the key is not bound. -/
def specAnnotation (c : Clients) (rel : Release) : String :=
  match rel.Annotations.lookup c.ReleaseClustersAnnotation with
  | some value => value
  | none => ""

/-- The update condition in the words of the specification: the release keeps
at least one cluster, and the sorted, comma-joined remaining clusters differ
from its current clusters annotation. -/
def specUpdate (c : Clients) (rel : Release) : Bool :=
  !(c.FilterSelectedClusters (c.GetSelectedClusters rel) c.clusters).isEmpty &&
    specRemaining c rel != specAnnotation c rel

/-- The entry of an updated release in the words of the specification: its
selected clusters joined by commas, the sorted, comma-joined remaining
clusters, its namespace and name. -/
def specUpdateEntry (c : Clients) (rel : Release) : ReleaseAndFilteredAnnotations :=
  { OldClusterAnnotation := String.intercalate "," (c.GetSelectedClusters rel)
    FilteredClusterAnnotation := specRemaining c rel
    Namespace := rel.Namespace
    Name := rel.Name }

/-- Modelled from the spec: the filter `cmdutil.FilterSelectedClusters`, which
is defined in another package; the help text of the command describes it as
removing the decommissioned clusters from the selected ones.  Used for the
examples only. -/
def removeDecommissioned (selected decommissioned : List String) : List String :=
  selected.filter (fun s => !decommissioned.contains s)

/-- An example management cluster: namespace `ns` holds three releases, cluster
`old` is decommissioned, release `b` is the contender. -/
def exampleClients : Clients where
  clusters := ["old"]
  ReleaseClustersAnnotation := "shipper.booking.com/release.clusters"
  listNamespaces := .ok ["ns"]
  listReleases := fun _ =>
    .ok [{ Namespace := "ns", Name := "a",
           Annotations := [("shipper.booking.com/release.clusters", "old")] },
         { Namespace := "ns", Name := "b",
           Annotations := [("shipper.booking.com/release.clusters", "old")] },
         { Namespace := "ns", Name := "c",
           Annotations := [("shipper.booking.com/release.clusters", "old,new")] }]
  GetSelectedClusters := fun rel =>
    if rel.Name = "c" then ["old", "new"] else ["old"]
  FilterSelectedClusters := removeDecommissioned
  IsContender := fun rel => .ok (rel.Name == "b")

/-- The release `g` of `sortingClients`: its annotation is `a,b` while its
selected clusters are `b`, `old`, `a`. -/
def releaseG : Release :=
  { Namespace := "ns", Name := "g",
    Annotations := [("shipper.booking.com/release.clusters", "a,b")] }

/-- A management cluster whose releases keep two clusters each; cluster `old`
is decommissioned.  Release `d` is scheduled on `b`, `a` and annotated `b,a`;
release `e` is scheduled on `a`, `b` and annotated `a,b`; release `f` is
scheduled on `b`, `old`, `a` and annotated `b,old,a`; release `g` is scheduled
on `b`, `old`, `a` and annotated `a,b`. -/
def sortingClients : Clients where
  clusters := ["old"]
  ReleaseClustersAnnotation := "shipper.booking.com/release.clusters"
  listNamespaces := .ok ["ns"]
  listReleases := fun _ =>
    .ok [{ Namespace := "ns", Name := "d",
           Annotations := [("shipper.booking.com/release.clusters", "b,a")] },
         { Namespace := "ns", Name := "e",
           Annotations := [("shipper.booking.com/release.clusters", "a,b")] },
         { Namespace := "ns", Name := "f",
           Annotations := [("shipper.booking.com/release.clusters", "b,old,a")] },
         releaseG]
  GetSelectedClusters := fun rel =>
    if rel.Name = "d" then ["b", "a"]
    else if rel.Name = "e" then ["a", "b"]
    else ["b", "old", "a"]
  FilterSelectedClusters := removeDecommissioned
  IsContender := fun _ => .ok false

/-- A management cluster without namespaces. -/
def emptyClients : Clients where
  clusters := []
  ReleaseClustersAnnotation := "shipper.booking.com/release.clusters"
  listNamespaces := .ok []
  listReleases := fun _ => .ok []
  GetSelectedClusters := fun _ => []
  FilterSelectedClusters := removeDecommissioned
  IsContender := fun _ => .ok false

end Shipper.Cmd

namespace Shipper

/-! ## Integer conversions -/

theorem toInt_toUint (x : Int) (hx : inIntRange x) : toInt (toUint x) = x := by
  obtain ⟨h1, h2⟩ := hx
  unfold toInt toUint
  norm_num at h1 h2 ⊢
  have hmod : (0 : Int) ≤ x % 18446744073709551616 := Int.emod_nonneg _ (by norm_num)
  have hlt : x % 18446744073709551616 < 18446744073709551616 := Int.emod_lt_of_pos _ (by norm_num)
  split <;> omega

theorem toUint_of_nonneg (x : Int) (h0 : 0 ≤ x) (hx : inIntRange x) : ((toUint x : Nat) : Int) = x := by
  obtain ⟨h1, h2⟩ := hx
  unfold toUint
  norm_num at h1 h2 ⊢
  omega

theorem toUint_inj (x y : Int) (hx : inIntRange x) (hy : inIntRange y) :
    toUint x = toUint y ↔ x = y := by
  constructor
  · intro h
    have := congrArg toInt h
    rwa [toInt_toUint x hx, toInt_toUint y hy] at this
  · intro h; rw [h]

/-! ## `strconv.Atoi` -/

/-- The accumulated value never decreases. -/
theorem foldl_digits_ge (cs : List Char) (n : Nat) :
    n ≤ cs.foldl (fun acc c => acc * 10 + (c.toNat - '0'.toNat)) n := by
  induction cs generalizing n with
  | nil => exact Nat.le_refl _
  | cons c cs ih =>
    rw [List.foldl_cons]
    exact Nat.le_trans (by omega) (ih _)

/-- On decimal digits `parseUint` computes the positional value, or reports a
range error when that value does not fit 64 bits. -/
theorem parseUint_of_digits (cs : List Char) (n : Nat) (h : cs.all Char.isDigit = true)
    (hn : n < 2 ^ 64) :
    parseUint cs n =
      if cs.foldl (fun acc c => acc * 10 + (c.toNat - '0'.toNat)) n < 2 ^ 64 then
        .ok (cs.foldl (fun acc c => acc * 10 + (c.toNat - '0'.toNat)) n)
      else .error .ErrRange := by
  have hcut : maxUint64 / 10 + 1 = 1844674407370955162 := by norm_num [maxUint64]
  have hmax : maxUint64 = 18446744073709551615 := by norm_num [maxUint64]
  have hpow : (2 : Nat) ^ 64 = 18446744073709551616 := by norm_num
  induction cs generalizing n with
  | nil =>
    unfold parseUint
    rw [List.foldl_nil, if_pos hn]
  | cons c cs ih =>
    simp only [List.all_cons, Bool.and_eq_true] at h
    have hge := foldl_digits_ge cs (n * 10 + (c.toNat - '0'.toNat))
    have ih1 := ih (n * 10 + (c.toNat - '0'.toNat)) h.2
    unfold parseUint
    rw [List.foldl_cons]
    simp only [h.1, Bool.not_true, Bool.false_eq_true, if_false]
    generalize c.toNat - '0'.toNat = d at hge ih1 ⊢
    generalize List.foldl (fun acc c => acc * 10 + (c.toNat - '0'.toNat)) (n * 10 + d) cs = v
      at hge ih1 ⊢
    rw [hcut, hmax]
    rw [hpow] at hn ih1 ⊢
    by_cases h1 : n ≥ 1844674407370955162
    · rw [if_pos h1, if_neg (by omega)]
    · rw [if_neg h1]
      by_cases h2 : n * 10 + d > 18446744073709551615
      · rw [if_pos h2, if_neg (by omega)]
      · rw [if_neg h2]
        exact ih1 (by omega)

/-- On input with a byte that is not a digit `parseUint` fails: with a range
error when the digits before that byte already overflow 64 bits, with a syntax
error otherwise. -/
theorem parseUint_of_not_digits (cs : List Char) (n : Nat) (h : cs.all Char.isDigit = false)
    (hn : n < 2 ^ 64) :
    parseUint cs n =
      .error
        (if 2 ^ 64 ≤ (cs.takeWhile Char.isDigit).foldl
            (fun acc c => acc * 10 + (c.toNat - '0'.toNat)) n
          then .ErrRange else .ErrSyntax) := by
  have hcut : maxUint64 / 10 + 1 = 1844674407370955162 := by norm_num [maxUint64]
  have hmax : maxUint64 = 18446744073709551615 := by norm_num [maxUint64]
  have hpow : (2 : Nat) ^ 64 = 18446744073709551616 := by norm_num
  induction cs generalizing n with
  | nil => simp at h
  | cons c cs ih =>
    unfold parseUint
    by_cases hc : c.isDigit = true
    · have hcs : cs.all Char.isDigit = false := by simpa [List.all_cons, hc] using h
      have hge := foldl_digits_ge (cs.takeWhile Char.isDigit) (n * 10 + (c.toNat - '0'.toNat))
      have ih1 := ih (n * 10 + (c.toNat - '0'.toNat)) hcs
      simp only [hc, Bool.not_true, Bool.false_eq_true, if_false,
        List.takeWhile_cons, if_true, List.foldl_cons]
      generalize c.toNat - '0'.toNat = d at hge ih1 ⊢
      generalize List.foldl (fun acc c => acc * 10 + (c.toNat - '0'.toNat)) (n * 10 + d)
        (cs.takeWhile Char.isDigit) = v at hge ih1 ⊢
      rw [hcut, hmax]
      rw [hpow] at hn ih1 ⊢
      by_cases h1 : n ≥ 1844674407370955162
      · rw [if_pos h1, if_pos (by omega)]
      · rw [if_neg h1]
        by_cases h2 : n * 10 + d > 18446744073709551615
        · rw [if_pos h2, if_pos (by omega)]
        · rw [if_neg h2]
          exact ih1 (by omega)
    · have hlt : ¬ 2 ^ 64 ≤ n := by omega
      have hc0 : c.isDigit = false := by simpa using hc
      simp only [hc0, Bool.not_false, if_true, List.takeWhile_cons, Bool.false_eq_true,
        if_false, List.foldl_nil]
      rw [if_neg hlt]

/-- From the start of the digits `parseUint` computes `decimalValue`. -/
theorem parseUint_zero_of_digits (cs : List Char) (h : cs.all Char.isDigit = true) :
    parseUint cs 0 =
      if decimalValue cs < 2 ^ 64 then .ok (decimalValue cs) else .error .ErrRange :=
  parseUint_of_digits cs 0 h (by norm_num)

/-- What `strconv.Atoi` does after the sign when the rest is not a sequence of
one or more digits. -/
theorem parseUint_zero_of_not_digits (cs : List Char) (h : cs.all Char.isDigit = false) :
    parseUint cs 0 =
      .error (if 2 ^ 64 ≤ decimalValue (cs.takeWhile Char.isDigit)
        then .ErrRange else .ErrSyntax) :=
  parseUint_of_not_digits cs 0 h (by norm_num)

/-- A string that is not a decimal integer is rejected by `strconv.Atoi`: with
a range error when its leading digits already overflow 64 bits, with a syntax
error otherwise. -/
theorem atoi_of_not_decimal (s : String) (h : isDecimalInteger s = false) :
    atoi s = .error (.NumError "Atoi" s
      (if 2 ^ 64 ≤ decimalValue (digitPrefix s) then .ErrRange else .ErrSyntax)) := by
  have hnil : ¬ 2 ^ 64 ≤ decimalValue [] := by simp [decimalValue]
  unfold isDecimalInteger at h
  unfold atoi digitPrefix
  generalize s.toList = cs at h
  split at h <;>
    simp only [Bool.and_eq_false_iff, Bool.not_eq_false'] at h <;>
    rcases h with h | h
  · rename_i x rest
    have h0 : rest = [] := by simpa using h
    subst h0
    simp only [List.isEmpty_nil, if_true, List.takeWhile_nil, if_neg hnil]
  · rename_i x rest
    have hne : rest.isEmpty = false := by cases rest <;> simp_all
    simp only [hne, Bool.false_eq_true, if_false, parseUint_zero_of_not_digits _ h]
  · rename_i x rest
    have h0 : rest = [] := by simpa using h
    subst h0
    simp only [List.isEmpty_nil, if_true, List.takeWhile_nil, if_neg hnil]
  · rename_i x rest
    have hne : rest.isEmpty = false := by cases rest <;> simp_all
    simp only [hne, Bool.false_eq_true, if_false, parseUint_zero_of_not_digits _ h]
  · have h0 : cs = [] := by simpa using h
    subst h0
    simp only [List.isEmpty_nil, if_true, List.takeWhile_nil, if_neg hnil]
  · have hne : cs.isEmpty = false := by cases cs <;> simp_all
    simp only [hne, Bool.false_eq_true, if_false, parseUint_zero_of_not_digits _ h]

/-- A decimal string for an integer within the range of `int` is what
`strconv.Atoi` accepts, with that integer as the value. -/
theorem atoi_of_decimalString (s : String) (n : Int) (hs : isDecimalStringFor s n = true)
    (hn : inIntRange n) : atoi s = .ok n := by
  obtain ⟨h1, h2⟩ := hn
  unfold isDecimalStringFor at hs
  unfold atoi
  generalize s.toList = cs at hs
  split at hs <;>
    simp only [Bool.and_eq_true, Bool.not_eq_true', beq_iff_eq] at hs <;>
    obtain ⟨⟨hne, hd⟩, hv⟩ := hs <;>
    subst hv <;>
    simp only [hne, parseUint_zero_of_digits _ hd, Bool.false_eq_true, if_false] <;>
    generalize decimalValue _ = v at h1 h2 ⊢ <;>
    norm_num at h1 h2 ⊢
  · rw [if_pos (by omega)]
    simp only
    rw [if_neg (by omega)]
  · rw [if_pos (by omega)]
    simp only
    rw [if_neg (by omega)]
  · rw [if_pos (by omega)]
    simp only
    rw [if_neg (by omega)]

/-- A decimal string for an integer outside the range of `int` is rejected by
`strconv.Atoi` with a range error. -/
theorem atoi_of_decimalString_out_of_range (s : String) (n : Int)
    (hs : isDecimalStringFor s n = true) (hn : ¬ inIntRange n) :
    atoi s = .error (.NumError "Atoi" s .ErrRange) := by
  unfold inIntRange at hn
  unfold isDecimalStringFor at hs
  unfold atoi
  generalize s.toList = cs at hs
  split at hs <;>
    simp only [Bool.and_eq_true, Bool.not_eq_true', beq_iff_eq] at hs <;>
    obtain ⟨⟨hne, hd⟩, hv⟩ := hs <;>
    subst hv <;>
    simp only [hne, parseUint_zero_of_digits _ hd, Bool.false_eq_true, if_false] <;>
    generalize decimalValue _ = v at hn ⊢ <;>
    norm_num at hn ⊢ <;>
    by_cases hv : v < 18446744073709551616
  · rw [if_pos hv]
    simp only
    rw [if_pos (by omega)]
  · rw [if_neg hv]
  · rw [if_pos hv]
    simp only
    rw [if_pos (by omega)]
  · rw [if_neg hv]
  · rw [if_pos hv]
    simp only
    rw [if_pos (by omega)]
  · rw [if_neg hv]

end Shipper

namespace Shipper

/-! ## The gates of `execute` -/

/-- Once the step resolves, `execute` is the cascade of the installation,
contender and incumbent gates followed by finalization. -/
theorem execute_of_resolved (h : Helpers) (s : Executor) (step : StrategyStep)
    (hrange : inIntRange s.contender.release.Spec.TargetStep)
    (hstep : h.getStrategyStep
      (h.getStrategy s.contender.release.Environment.ShipmentOrder.Strategy)
      s.contender.release.Spec.TargetStep = .ok step) :
    execute h s =
      if !h.checkInstallation s.contender then ([], none)
      else
        match checkContender h s step with
        | (_, _, some err) => ([], some err)
        | (false, contenderPatches, none) => (contenderPatches, none)
        | (true, _, none) =>
          match (match s.incumbent with
            | some incumbent =>
              match checkIncumbent h incumbent step with
              | (_, _, some err) => some ([], some err)
              | (false, incumbentPatches, none) => some (incumbentPatches, none)
              | (true, _, none) => none
            | none => none : Option (List ExecutorResult × Option ExecError)) with
          | some result => result
          | none =>
            finalizeRelease s (toUint s.contender.release.Spec.TargetStep) step
              (toUint s.contender.release.Spec.TargetStep ==
                toUint (lastStepIndex
                  (h.getStrategy s.contender.release.Environment.ShipmentOrder.Strategy))) := by
  unfold execute
  simp only [toInt_toUint _ hrange, hstep]
  split
  · rfl
  · split
    · rfl
    · rfl
    · split
      · rfl
      · simp [finalizeRelease]

/-- C1 (installation gate): when the step at the contender's `TargetStep`
resolves and `checkInstallation` reports that installation is not complete,
`execute` returns the empty patch list and no error, whatever the helpers, the
targets, the statuses and the incumbent are. -/
theorem execute_installation_gate (h : Helpers) (s : Executor) (step : StrategyStep)
    (hrange : inIntRange s.contender.release.Spec.TargetStep)
    (hstep : h.getStrategyStep
      (h.getStrategy s.contender.release.Environment.ShipmentOrder.Strategy)
      s.contender.release.Spec.TargetStep = .ok step)
    (hinst : h.checkInstallation s.contender = false) :
    execute h s = ([], none) := by
  rw [execute_of_resolved h s step hrange hstep]
  simp [hinst]

/-- Witness for C1: a contender on a cluster that is still `Pending`, with
capacity and traffic far from the step and an incumbent present. -/
theorem execute_installation_gate_witness :
    inIntRange (0 : Int) ∧
    checkInstallation (mkInfo "new" 0 ⟨0, ""⟩ "Pending" 10 20 30 40) = false ∧
    execute fixtureHelpers
      { contender := mkInfo "new" 0 ⟨0, ""⟩ "Pending" 10 20 30 40,
        incumbent := some (mkInfo "old" 1 ⟨1, "Installed"⟩ "Installed" 100 100 100 100) }
      = ([], none) :=
  ⟨by decide, by decide,
    execute_installation_gate fixtureHelpers
      { contender := mkInfo "new" 0 ⟨0, ""⟩ "Pending" 10 20 30 40,
        incumbent := some (mkInfo "old" 1 ⟨1, "Installed"⟩ "Installed" 100 100 100 100) }
      step0 (by decide) rfl (by decide)⟩

/-- Either `execute` reports no error or it returns no patch. -/
theorem execute_error_or_empty (h : Helpers) (s : Executor) :
    (execute h s).2 = none ∨ (execute h s).1 = [] := by
  unfold execute
  simp only
  repeat' split
  all_goals first
    | (simp_all; done)
    | (rename_i hgate
       split at hgate
       · split at hgate <;> simp_all <;> simp [← hgate]
       · simp at hgate)

/-- C2 (error atomicity): whenever `execute` returns an error, the patch list it
returns is empty. -/
theorem execute_error_atomic (h : Helpers) (s : Executor) (err : ExecError)
    (herr : (execute h s).2 = some err) : (execute h s).1 = [] := by
  rcases execute_error_or_empty h s with hnone | hnil
  · rw [hnone] at herr; exact absurd herr (by simp)
  · exact hnil

/-- Witness for C2: a step whose contender capacity is `abc` makes `execute`
fail, and the patch list is empty. -/
theorem execute_error_atomic_witness :
    (execute abcHelpers
      { contender := mkInfo "new" 0 ⟨0, ""⟩ "Installed" 0 0 0 0, incumbent := none }).2
      = some (.NumError "Atoi" "abc" .ErrSyntax) ∧
    (execute abcHelpers
      { contender := mkInfo "new" 0 ⟨0, ""⟩ "Installed" 0 0 0 0, incumbent := none }).1 = [] :=
  ⟨by decide,
    execute_error_atomic abcHelpers
      { contender := mkInfo "new" 0 ⟨0, ""⟩ "Installed" 0 0 0 0, incumbent := none }
      (.NumError "Atoi" "abc" .ErrSyntax) (by decide)⟩

/-! ## Shape of the two achievement checks -/

/-- The five possible outcomes of `checkContender`. -/
theorem checkContender_cases (h : Helpers) (s : Executor) (step : StrategyStep) :
    (∃ err, checkContender h s step = (false, [], some err)) ∨
    checkContender h s step = (false, [], none) ∨
    (∃ newSpec, checkContender h s step =
      (false, [.CapacityTargetOutdatedResult newSpec s.contender.release.Name], none)) ∨
    (∃ newSpec, checkContender h s step =
      (false, [.TrafficTargetOutdatedResult newSpec s.contender.release.Name], none)) ∨
    checkContender h s step = (true, [], none) := by
  unfold checkContender
  repeat' split
  all_goals simp

/-- The five possible outcomes of `checkIncumbent`. -/
theorem checkIncumbent_cases (h : Helpers) (incumbent : releaseInfo) (step : StrategyStep) :
    (∃ err, checkIncumbent h incumbent step = (false, [], some err)) ∨
    checkIncumbent h incumbent step = (false, [], none) ∨
    (∃ newSpec, checkIncumbent h incumbent step =
      (false, [.TrafficTargetOutdatedResult newSpec incumbent.release.Name], none)) ∨
    (∃ newSpec, checkIncumbent h incumbent step =
      (false, [.CapacityTargetOutdatedResult newSpec incumbent.release.Name], none)) ∨
    checkIncumbent h incumbent step = (true, [], none) := by
  unfold checkIncumbent
  repeat' split
  all_goals simp

/-- A contender check that fails to parse the contender capacity. -/
theorem checkContender_of_not_decimal (h : Helpers) (s : Executor) (step : StrategyStep)
    (hbad : isDecimalInteger step.ContenderCapacity = false) :
    checkContender h s step =
      (false, [], some (.NumError "Atoi" step.ContenderCapacity
        (if 2 ^ 64 ≤ decimalValue (digitPrefix step.ContenderCapacity) then .ErrRange
          else .ErrSyntax))) := by
  unfold checkContender
  rw [atoi_of_not_decimal _ hbad]

/-- C3, as stated, fails: the step of `abcStrategy` resolves and its contender
capacity `abc` is not a decimal integer, yet with installation still pending
`execute` returns no error. -/
theorem execute_parse_failure_counterexample :
    getStrategyStep abcStrategy 0 =
      .ok { IncumbentCapacity := "50", IncumbentTraffic := "50",
            ContenderCapacity := "abc", ContenderTraffic := "50" } ∧
    isDecimalInteger "abc" = false ∧
    execute abcHelpers
      { contender := mkInfo "new" 0 ⟨0, ""⟩ "Pending" 0 0 0 0, incumbent := none } = ([], none) :=
  ⟨rfl, by decide, by decide⟩

/-- C3 (amended): when the resolved step has a contender capacity that is not a
decimal integer, `execute` returns an empty patch list in every case; it returns
the error of `strconv.Atoi` for that string when the contender's installation is
complete, and no error when installation is still pending.  The error is a
range error when the digits at the start of the string already overflow 64
bits, and a syntax error otherwise. -/
theorem execute_parse_failure (h : Helpers) (s : Executor) (step : StrategyStep)
    (hrange : inIntRange s.contender.release.Spec.TargetStep)
    (hstep : h.getStrategyStep
      (h.getStrategy s.contender.release.Environment.ShipmentOrder.Strategy)
      s.contender.release.Spec.TargetStep = .ok step)
    (hbad : isDecimalInteger step.ContenderCapacity = false) :
    execute h s =
      if h.checkInstallation s.contender then
        ([], some (.NumError "Atoi" step.ContenderCapacity
          (if 2 ^ 64 ≤ decimalValue (digitPrefix step.ContenderCapacity) then .ErrRange
            else .ErrSyntax)))
      else ([], none) := by
  rw [execute_of_resolved h s step hrange hstep, checkContender_of_not_decimal h s step hbad]
  cases h.checkInstallation s.contender <;> simp

/-- Witness for C3 (amended): with installation complete, the `abc` step gives
the syntax error of `Atoi`, and a step whose contender capacity is twenty nines
followed by a letter gives its range error. -/
theorem execute_parse_failure_witness :
    inIntRange (0 : Int) ∧ isDecimalInteger "abc" = false ∧
    execute abcHelpers
      { contender := mkInfo "new" 0 ⟨0, ""⟩ "Installed" 0 0 0 0, incumbent := none }
      = ([], some (.NumError "Atoi" "abc" .ErrSyntax)) ∧
    isDecimalInteger overflowStep.ContenderCapacity = false ∧
    execute overflowHelpers
      { contender := mkInfo "new" 0 ⟨0, ""⟩ "Installed" 0 0 0 0, incumbent := none }
      = ([], some (.NumError "Atoi" "99999999999999999999x" .ErrRange)) :=
  ⟨by decide, by decide,
    (execute_parse_failure abcHelpers
      { contender := mkInfo "new" 0 ⟨0, ""⟩ "Installed" 0 0 0 0, incumbent := none }
      { IncumbentCapacity := "50", IncumbentTraffic := "50",
        ContenderCapacity := "abc", ContenderTraffic := "50" }
      (by decide) rfl (by decide)).trans (by decide),
    by decide,
    (execute_parse_failure overflowHelpers
      { contender := mkInfo "new" 0 ⟨0, ""⟩ "Installed" 0 0 0 0, incumbent := none }
      overflowStep (by decide) rfl (by decide)).trans (by decide)⟩

/-- C4 (contender gate): with the step resolved, (1) when installation is
complete and `checkContender` reports not-achieved without error, `execute`
returns exactly the patches of `checkContender`, and it does so whatever the
incumbent is; these patches are at most one capacity or traffic patch
addressed to the contender, never a status patch; (2) a status patch in the
result of `execute` implies that the contender check reported achieved; (3) a
result that depends on the incumbent implies that the contender check reported
achieved. -/
theorem execute_contender_gate (h : Helpers) (s : Executor) (step : StrategyStep)
    (hrange : inIntRange s.contender.release.Spec.TargetStep)
    (hstep : h.getStrategyStep
      (h.getStrategy s.contender.release.Environment.ShipmentOrder.Strategy)
      s.contender.release.Spec.TargetStep = .ok step) :
    (∀ patches, h.checkInstallation s.contender = true →
      checkContender h s step = (false, patches, none) →
        execute h s = (patches, none) ∧
        (∀ incumbent, execute h { s with incumbent := incumbent } = (patches, none)) ∧
        patches.length ≤ 1 ∧
        (∀ p ∈ patches, p.isReleaseUpdate = false ∧ p.name = s.contender.release.Name)) ∧
    (∀ p ∈ (execute h s).1, p.isReleaseUpdate = true →
      checkContender h s step = (true, [], none)) ∧
    (∀ incumbent, execute h { s with incumbent := incumbent } ≠ execute h s →
      checkContender h s step = (true, [], none)) := by
  have hexec : ∀ incumbent, execute h { s with incumbent := incumbent } =
      if !h.checkInstallation s.contender then ([], none)
      else
        match checkContender h s step with
        | (_, _, some err) => ([], some err)
        | (false, contenderPatches, none) => (contenderPatches, none)
        | (true, _, none) =>
          match (match incumbent with
            | some incumbent =>
              match checkIncumbent h incumbent step with
              | (_, _, some err) => some ([], some err)
              | (false, incumbentPatches, none) => some (incumbentPatches, none)
              | (true, _, none) => none
            | none => none : Option (List ExecutorResult × Option ExecError)) with
          | some result => result
          | none =>
            finalizeRelease { s with incumbent := incumbent }
              (toUint s.contender.release.Spec.TargetStep) step
              (toUint s.contender.release.Spec.TargetStep ==
                toUint (lastStepIndex
                  (h.getStrategy s.contender.release.Environment.ShipmentOrder.Strategy))) :=
    fun incumbent => execute_of_resolved h { s with incumbent := incumbent } step hrange hstep
  have hself : execute h s = execute h { s with incumbent := s.incumbent } := rfl
  refine ⟨?_, ?_, ?_⟩
  · intro patches hinst hnot
    have hall : ∀ incumbent, execute h { s with incumbent := incumbent } = (patches, none) := by
      intro incumbent
      rw [hexec incumbent, hnot]
      simp [hinst]
    refine ⟨hself ▸ hall s.incumbent, hall, ?_, ?_⟩
    · rcases checkContender_cases h s step with ⟨e, hc⟩ | hc | ⟨n, hc⟩ | ⟨n, hc⟩ | hc <;>
        rw [hc] at hnot <;> simp at hnot <;> subst hnot <;> simp
    · rcases checkContender_cases h s step with ⟨e, hc⟩ | hc | ⟨n, hc⟩ | ⟨n, hc⟩ | hc <;>
        rw [hc] at hnot <;> simp at hnot <;> subst hnot <;>
        simp [ExecutorResult.isReleaseUpdate, ExecutorResult.name]
  · intro p hp hrel
    rw [hself, hexec s.incumbent] at hp
    rcases checkContender_cases h s step with ⟨e, hc⟩ | hc | ⟨n, hc⟩ | ⟨n, hc⟩ | hc
    · rw [hc] at hp; cases hi : h.checkInstallation s.contender <;> simp [hi] at hp
    · rw [hc] at hp; cases hi : h.checkInstallation s.contender <;> simp [hi] at hp
    · rw [hc] at hp; cases hi : h.checkInstallation s.contender <;> simp [hi] at hp
      subst hp; simp [ExecutorResult.isReleaseUpdate] at hrel
    · rw [hc] at hp; cases hi : h.checkInstallation s.contender <;> simp [hi] at hp
      subst hp; simp [ExecutorResult.isReleaseUpdate] at hrel
    · exact hc
  · intro incumbent hne
    rcases checkContender_cases h s step with ⟨e, hc⟩ | hc | ⟨n, hc⟩ | ⟨n, hc⟩ | hc
    all_goals first
      | exact hc
      | (exfalso; apply hne; rw [hself, hexec incumbent, hexec s.incumbent, hc])

/-- Witness for C4: the contender has not reached step 0 while an incumbent far
from its own target is present; the result is the contender's capacity patch
alone. -/
theorem execute_contender_gate_witness :
    inIntRange (0 : Int) ∧
    execute fixtureHelpers
      { contender := mkInfo "new" 0 ⟨0, ""⟩ "Installed" 0 0 0 0,
        incumbent := some (mkInfo "old" 1 ⟨1, "Installed"⟩ "Installed" 100 100 100 100) }
      = ([.CapacityTargetOutdatedResult ⟨[⟨"c1", 50⟩]⟩ "new"], none) :=
  ⟨by decide,
    ((execute_contender_gate fixtureHelpers
      { contender := mkInfo "new" 0 ⟨0, ""⟩ "Installed" 0 0 0 0,
        incumbent := some (mkInfo "old" 1 ⟨1, "Installed"⟩ "Installed" 100 100 100 100) }
      step0 (by decide) rfl).1
      [.CapacityTargetOutdatedResult ⟨[⟨"c1", 50⟩]⟩ "new"] (by decide) (by decide)).1⟩

/-! ## The order of the sub-resource checks -/

/-- The contender check, once both percentages parse, as a function of the
outcomes of the capacity and the traffic check. -/
theorem checkContender_of_parsed (h : Helpers) (s : Executor) (step : StrategyStep)
    (c t : Int) (hc : atoi step.ContenderCapacity = .ok c)
    (ht : atoi step.ContenderTraffic = .ok t) :
    checkContender h s step =
      match h.checkCapacity s.contender.capacityTarget (toUint c)
          h.contenderCapacityComparison with
      | (false, some newSpec) =>
        (false, [.CapacityTargetOutdatedResult newSpec s.contender.release.Name], none)
      | (false, none) => (false, [], none)
      | (true, _) =>
        match h.checkTraffic s.contender.trafficTarget (toUint t)
            h.contenderTrafficComparison with
        | (false, some newSpec) =>
          (false, [.TrafficTargetOutdatedResult newSpec s.contender.release.Name], none)
        | (false, none) => (false, [], none)
        | (true, _) => (true, [], none) := by
  unfold checkContender
  rw [hc, ht]

/-- The incumbent check, once both percentages parse, as a function of the
outcomes of the traffic and the capacity check. -/
theorem checkIncumbent_of_parsed (h : Helpers) (incumbent : releaseInfo) (step : StrategyStep)
    (c t : Int) (hc : atoi step.IncumbentCapacity = .ok c)
    (ht : atoi step.IncumbentTraffic = .ok t) :
    checkIncumbent h incumbent step =
      match h.checkTraffic incumbent.trafficTarget (toUint t)
          h.incumbentTrafficComparison with
      | (false, some newSpec) =>
        (false, [.TrafficTargetOutdatedResult newSpec incumbent.release.Name], none)
      | (false, none) => (false, [], none)
      | (true, _) =>
        match h.checkCapacity incumbent.capacityTarget (toUint c)
            h.incumbentCapacityComparison with
        | (false, some newSpec) =>
          (false, [.CapacityTargetOutdatedResult newSpec incumbent.release.Name], none)
        | (false, none) => (false, [], none)
        | (true, _) => (true, [], none) := by
  unfold checkIncumbent
  rw [hc, ht]

/-- With the step resolved, installation complete and the contender not
achieved, `execute` returns the contender's patches. -/
theorem execute_of_contender_pending (h : Helpers) (s : Executor) (step : StrategyStep)
    (hrange : inIntRange s.contender.release.Spec.TargetStep)
    (hstep : h.getStrategyStep
      (h.getStrategy s.contender.release.Environment.ShipmentOrder.Strategy)
      s.contender.release.Spec.TargetStep = .ok step)
    (hinst : h.checkInstallation s.contender = true)
    (patches : List ExecutorResult)
    (hnot : checkContender h s step = (false, patches, none)) :
    execute h s = (patches, none) := by
  rw [execute_of_resolved h s step hrange hstep, hnot]
  simp [hinst]

/-- With the step resolved, installation complete, the contender achieved and
the incumbent not achieved, `execute` returns the incumbent's patches. -/
theorem execute_of_incumbent_pending (h : Helpers) (s : Executor) (step : StrategyStep)
    (hrange : inIntRange s.contender.release.Spec.TargetStep)
    (hstep : h.getStrategyStep
      (h.getStrategy s.contender.release.Environment.ShipmentOrder.Strategy)
      s.contender.release.Spec.TargetStep = .ok step)
    (hinst : h.checkInstallation s.contender = true)
    (hcont : checkContender h s step = (true, [], none))
    (incumbent : releaseInfo) (hinc : s.incumbent = some incumbent)
    (patches : List ExecutorResult)
    (hnot : checkIncumbent h incumbent step = (false, patches, none)) :
    execute h s = (patches, none) := by
  rw [execute_of_resolved h s step hrange hstep, hcont, hinc]
  simp [hinst, hnot]

/-- C5 (no-op suppression): with the step resolved and installation complete,
for each of the four sub-resource checks: when it is the first unmet check and
it reports not-achieved without a new spec, `checkContender` (respectively
`checkIncumbent`) reports not-achieved with an empty patch list and no error,
and `execute` returns no patches and no error. -/
theorem noop_suppression (h : Helpers) (s : Executor) (step : StrategyStep)
    (hrange : inIntRange s.contender.release.Spec.TargetStep)
    (hstep : h.getStrategyStep
      (h.getStrategy s.contender.release.Environment.ShipmentOrder.Strategy)
      s.contender.release.Spec.TargetStep = .ok step)
    (hinst : h.checkInstallation s.contender = true) :
    (∀ c t, atoi step.ContenderCapacity = .ok c → atoi step.ContenderTraffic = .ok t →
      h.checkCapacity s.contender.capacityTarget (toUint c) h.contenderCapacityComparison
        = (false, none) →
      checkContender h s step = (false, [], none) ∧ execute h s = ([], none)) ∧
    (∀ c t, atoi step.ContenderCapacity = .ok c → atoi step.ContenderTraffic = .ok t →
      (h.checkCapacity s.contender.capacityTarget (toUint c)
        h.contenderCapacityComparison).1 = true →
      h.checkTraffic s.contender.trafficTarget (toUint t) h.contenderTrafficComparison
        = (false, none) →
      checkContender h s step = (false, [], none) ∧ execute h s = ([], none)) ∧
    (∀ incumbent c t, s.incumbent = some incumbent →
      checkContender h s step = (true, [], none) →
      atoi step.IncumbentCapacity = .ok c → atoi step.IncumbentTraffic = .ok t →
      h.checkTraffic incumbent.trafficTarget (toUint t) h.incumbentTrafficComparison
        = (false, none) →
      checkIncumbent h incumbent step = (false, [], none) ∧ execute h s = ([], none)) ∧
    (∀ incumbent c t, s.incumbent = some incumbent →
      checkContender h s step = (true, [], none) →
      atoi step.IncumbentCapacity = .ok c → atoi step.IncumbentTraffic = .ok t →
      (h.checkTraffic incumbent.trafficTarget (toUint t)
        h.incumbentTrafficComparison).1 = true →
      h.checkCapacity incumbent.capacityTarget (toUint c) h.incumbentCapacityComparison
        = (false, none) →
      checkIncumbent h incumbent step = (false, [], none) ∧ execute h s = ([], none)) := by
  refine ⟨?_, ?_, ?_, ?_⟩
  · intro c t hc ht hcap
    have hcheck : checkContender h s step = (false, [], none) := by
      rw [checkContender_of_parsed h s step c t hc ht, hcap]
    exact ⟨hcheck, execute_of_contender_pending h s step hrange hstep hinst [] hcheck⟩
  · intro c t hc ht hcap htr
    have hcheck : checkContender h s step = (false, [], none) := by
      rw [checkContender_of_parsed h s step c t hc ht, htr]
      split <;> simp_all
    exact ⟨hcheck, execute_of_contender_pending h s step hrange hstep hinst [] hcheck⟩
  · intro incumbent c t hinc hcont hc ht htr
    have hcheck : checkIncumbent h incumbent step = (false, [], none) := by
      rw [checkIncumbent_of_parsed h incumbent step c t hc ht, htr]
    exact ⟨hcheck,
      execute_of_incumbent_pending h s step hrange hstep hinst hcont incumbent hinc [] hcheck⟩
  · intro incumbent c t hinc hcont hc ht htr hcap
    have hcheck : checkIncumbent h incumbent step = (false, [], none) := by
      rw [checkIncumbent_of_parsed h incumbent step c t hc ht, hcap]
      split <;> simp_all
    exact ⟨hcheck,
      execute_of_incumbent_pending h s step hrange hstep hinst hcont incumbent hinc [] hcheck⟩

/-- Witness for C5: the contender's capacity spec is already at 50 while the
achieved capacity is still 0; no patch is returned. -/
theorem noop_suppression_witness :
    inIntRange (0 : Int) ∧
    checkCapacity (mkInfo "new" 0 ⟨0, ""⟩ "Installed" 50 0 0 0).capacityTarget 50
      contenderCapacityComparison = (false, none) ∧
    execute fixtureHelpers
      { contender := mkInfo "new" 0 ⟨0, ""⟩ "Installed" 50 0 0 0, incumbent := none }
      = ([], none) :=
  ⟨by decide, by decide,
    ((noop_suppression fixtureHelpers
      { contender := mkInfo "new" 0 ⟨0, ""⟩ "Installed" 50 0 0 0, incumbent := none }
      step0 (by decide) rfl (by decide)).1 50 50 rfl rfl (by decide)).2⟩

/-- C6, as stated, fails in its scenario: with step `{50, 50}`, achieved
capacity 0 and achieved traffic 0, but a capacity spec that is already 50, the
contender check returns no patch at all. -/
theorem checkContender_order_counterexample :
    atoi step0.ContenderCapacity = .ok 50 ∧ atoi step0.ContenderTraffic = .ok 50 ∧
    checkContender fixtureHelpers
      { contender := mkInfo "new" 0 ⟨0, ""⟩ "Installed" 50 0 0 0, incumbent := none } step0
      = (false, [], none) :=
  ⟨rfl, rfl, by decide⟩

/-- C6 (amended): when both contender percentages parse, the outcome of
`checkContender` is fixed by the first unmet check in the order capacity, then
traffic: (1) capacity not achieved gives not-achieved with the capacity patch
for the contender when a new spec is given and no patch otherwise, never a
traffic patch, whatever the traffic check says; (2) capacity achieved and
traffic not gives not-achieved with the traffic patch when a new spec is given
and no patch otherwise; (3) both achieved gives achieved with no patches;
(4) achieved is reported only if both checks are achieved; (5) with step
`{50, 50}`, achieved capacity 0, achieved traffic 0 and a capacity spec that is
not already 50, the result is exactly one capacity patch at 50 and no traffic
patch. -/
theorem checkContender_order (h : Helpers) (s : Executor) (step : StrategyStep)
    (c t : Int) (hc : atoi step.ContenderCapacity = .ok c)
    (ht : atoi step.ContenderTraffic = .ok t) :
    (∀ newSpec, h.checkCapacity s.contender.capacityTarget (toUint c)
        h.contenderCapacityComparison = (false, newSpec) →
      checkContender h s step =
        (false,
          (newSpec.map
            (fun spec => ExecutorResult.CapacityTargetOutdatedResult spec
              s.contender.release.Name)).toList,
          none) ∧
      (∀ p ∈ (checkContender h s step).2.1, p.isTrafficPatch = false)) ∧
    (∀ x newSpec, h.checkCapacity s.contender.capacityTarget (toUint c)
        h.contenderCapacityComparison = (true, x) →
      h.checkTraffic s.contender.trafficTarget (toUint t)
        h.contenderTrafficComparison = (false, newSpec) →
      checkContender h s step =
        (false,
          (newSpec.map
            (fun spec => ExecutorResult.TrafficTargetOutdatedResult spec
              s.contender.release.Name)).toList,
          none)) ∧
    (∀ x y, h.checkCapacity s.contender.capacityTarget (toUint c)
        h.contenderCapacityComparison = (true, x) →
      h.checkTraffic s.contender.trafficTarget (toUint t)
        h.contenderTrafficComparison = (true, y) →
      checkContender h s step = (true, [], none)) ∧
    ((checkContender h s step).1 = true →
      (h.checkCapacity s.contender.capacityTarget (toUint c)
        h.contenderCapacityComparison).1 = true ∧
      (h.checkTraffic s.contender.trafficTarget (toUint t)
        h.contenderTrafficComparison).1 = true) ∧
    (∀ (name installed : String) (status : ReleaseStatus) (capSpec trSpec : Nat)
        (incumbent : Option releaseInfo), capSpec ≠ 50 →
      checkContender fixtureHelpers
        { contender := mkInfo name 0 status installed capSpec 0 trSpec 0,
          incumbent := incumbent } step0
        = (false, [.CapacityTargetOutdatedResult ⟨[⟨"c1", 50⟩]⟩ name], none)) := by
  have hparsed := checkContender_of_parsed h s step c t hc ht
  refine ⟨?_, ?_, ?_, ?_, ?_⟩
  · intro newSpec hcap
    have hres : checkContender h s step =
        (false,
          (newSpec.map
            (fun spec => ExecutorResult.CapacityTargetOutdatedResult spec
              s.contender.release.Name)).toList,
          none) := by
      rw [hparsed, hcap]
      cases newSpec <;> rfl
    refine ⟨hres, ?_⟩
    rw [hres]
    cases newSpec <;> simp [ExecutorResult.isTrafficPatch]
  · intro x newSpec hcap htr
    rw [hparsed, hcap]
    simp only [htr]
    cases newSpec <;> rfl
  · intro x y hcap htr
    rw [hparsed, hcap]
    simp only [htr]
  · intro hach
    rw [hparsed] at hach
    split at hach
    · simp at hach
    · simp at hach
    · rename_i hcap
      split at hach
      · simp at hach
      · simp at hach
      · rename_i htr
        simp [hcap, htr]
  · intro name installed status capSpec trSpec incumbent hne
    rw [checkContender_of_parsed fixtureHelpers _ step0 50 50 rfl rfl]
    have h50 : toUint 50 = 50 := by decide
    simp [h50, fixtureHelpers, specHelpers, checkCapacity, mkInfo, contenderCapacityComparison,
      hne]

/-- Witness for C6 (amended): a fresh contender at step 0 of the example
strategy gets exactly the capacity patch. -/
theorem checkContender_order_witness :
    atoi step0.ContenderCapacity = .ok 50 ∧ atoi step0.ContenderTraffic = .ok 50 ∧
    checkContender fixtureHelpers
      { contender := mkInfo "new" 0 ⟨0, ""⟩ "Installed" 0 0 0 0, incumbent := none } step0
      = (false, [.CapacityTargetOutdatedResult ⟨[⟨"c1", 50⟩]⟩ "new"], none) :=
  ⟨rfl, rfl,
    ((checkContender_order fixtureHelpers
      { contender := mkInfo "new" 0 ⟨0, ""⟩ "Installed" 0 0 0 0, incumbent := none }
      step0 50 50 rfl rfl).1 (some ⟨[⟨"c1", 50⟩]⟩) (by decide)).1⟩

/-- C7 (incumbent check order): when both incumbent percentages parse,
`checkIncumbent` checks traffic before capacity: (1) whenever the traffic check
is not achieved the result is not-achieved, holds the traffic patch for the
incumbent when a new spec is given and nothing otherwise, and in particular no
capacity patch, whatever the capacity check says; (2) a capacity patch in the
result implies that the traffic check reported achieved. -/
theorem checkIncumbent_order (h : Helpers) (incumbent : releaseInfo) (step : StrategyStep)
    (c t : Int) (hc : atoi step.IncumbentCapacity = .ok c)
    (ht : atoi step.IncumbentTraffic = .ok t) :
    (∀ newSpec, h.checkTraffic incumbent.trafficTarget (toUint t)
        h.incumbentTrafficComparison = (false, newSpec) →
      checkIncumbent h incumbent step =
        (false,
          (newSpec.map
            (fun spec => ExecutorResult.TrafficTargetOutdatedResult spec
              incumbent.release.Name)).toList,
          none) ∧
      (∀ p ∈ (checkIncumbent h incumbent step).2.1, p.isCapacityPatch = false)) ∧
    (∀ p ∈ (checkIncumbent h incumbent step).2.1, p.isCapacityPatch = true →
      (h.checkTraffic incumbent.trafficTarget (toUint t)
        h.incumbentTrafficComparison).1 = true) := by
  have hparsed := checkIncumbent_of_parsed h incumbent step c t hc ht
  have hfirst : ∀ newSpec, h.checkTraffic incumbent.trafficTarget (toUint t)
        h.incumbentTrafficComparison = (false, newSpec) →
      checkIncumbent h incumbent step =
        (false,
          (newSpec.map
            (fun spec => ExecutorResult.TrafficTargetOutdatedResult spec
              incumbent.release.Name)).toList,
          none) := by
    intro newSpec htr
    rw [hparsed, htr]
    cases newSpec <;> rfl
  refine ⟨?_, ?_⟩
  · intro newSpec htr
    refine ⟨hfirst newSpec htr, ?_⟩
    rw [hfirst newSpec htr]
    cases newSpec <;> simp [ExecutorResult.isCapacityPatch]
  · intro p hp hcap
    cases htr : h.checkTraffic incumbent.trafficTarget (toUint t)
        h.incumbentTrafficComparison with
    | mk achieved newSpec =>
      cases achieved with
      | true => rfl
      | false =>
        rw [hfirst newSpec htr] at hp
        cases newSpec <;> simp at hp
        subst hp
        simp [ExecutorResult.isCapacityPatch] at hcap

/-- Witness for C7: an incumbent that still carries traffic 100 and capacity
100 at step 0 gets the traffic patch alone. -/
theorem checkIncumbent_order_witness :
    atoi step0.IncumbentCapacity = .ok 50 ∧ atoi step0.IncumbentTraffic = .ok 50 ∧
    checkIncumbent fixtureHelpers
      (mkInfo "old" 1 ⟨1, "Installed"⟩ "Installed" 100 100 100 100) step0
      = (false, [.TrafficTargetOutdatedResult ⟨[⟨"c1", 50⟩]⟩ "old"], none) :=
  ⟨rfl, rfl,
    ((checkIncumbent_order fixtureHelpers
      (mkInfo "old" 1 ⟨1, "Installed"⟩ "Installed" 100 100 100 100)
      step0 50 50 rfl rfl).1 (some ⟨[⟨"c1", 50⟩]⟩) (by decide)).1⟩

end Shipper

namespace Shipper

/-! ## Finalization -/

/-- The patches of `finalizeRelease`: the contender's status patch when its
step or phase changes, followed by the incumbent's when its phase changes. -/
theorem finalizeRelease_eq (s : Executor) (targetStep : Nat) (step : StrategyStep)
    (isLastStep : Bool) :
    finalizeRelease s targetStep step isLastStep =
      ((if targetStep ≠ s.contender.release.Status.AchievedStep ∨
            (if isLastStep then ReleasePhaseInstalled else ReleasePhaseWaitingForCommand)
              ≠ s.contender.release.Status.Phase then
          [ExecutorResult.ReleaseUpdateResult
            ⟨targetStep,
              if isLastStep then ReleasePhaseInstalled else ReleasePhaseWaitingForCommand⟩
            s.contender.release.Name]
        else []) ++
        (match s.incumbent with
          | some incumbent =>
            if (if isLastStep then ReleasePhaseSuperseded else ReleasePhaseInstalled)
                ≠ incumbent.release.Status.Phase then
              [ExecutorResult.ReleaseUpdateResult
                ⟨incumbent.release.Status.AchievedStep,
                  if isLastStep then ReleasePhaseSuperseded else ReleasePhaseInstalled⟩
                incumbent.release.Name]
            else []
          | none => []),
        none) := by
  unfold finalizeRelease
  cases s.incumbent with
  | none => simp
  | some incumbent =>
    simp only
    split <;> simp <;> split <;> simp

/-- A check that reports achieved returns no patch and no error. -/
theorem checkContender_of_achieved (h : Helpers) (s : Executor) (step : StrategyStep)
    (hcont : (checkContender h s step).1 = true) :
    checkContender h s step = (true, [], none) := by
  rcases checkContender_cases h s step with ⟨e, hc⟩ | hc | ⟨n, hc⟩ | ⟨n, hc⟩ | hc <;>
    first | exact hc | (rw [hc] at hcont; simp at hcont)

/-- An incumbent check that reports achieved returns no patch and no error. -/
theorem checkIncumbent_of_achieved (h : Helpers) (incumbent : releaseInfo) (step : StrategyStep)
    (hinc : (checkIncumbent h incumbent step).1 = true) :
    checkIncumbent h incumbent step = (true, [], none) := by
  rcases checkIncumbent_cases h incumbent step with ⟨e, hc⟩ | hc | ⟨n, hc⟩ | ⟨n, hc⟩ | hc <;>
    first | exact hc | (rw [hc] at hinc; simp at hinc)

/-- When all gates pass, `execute` returns what `finalizeRelease` returns. -/
theorem execute_of_gates (h : Helpers) (s : Executor) (step : StrategyStep)
    (hrange : inIntRange s.contender.release.Spec.TargetStep)
    (hstep : h.getStrategyStep
      (h.getStrategy s.contender.release.Environment.ShipmentOrder.Strategy)
      s.contender.release.Spec.TargetStep = .ok step)
    (hinst : h.checkInstallation s.contender = true)
    (hcont : (checkContender h s step).1 = true)
    (hinc : ∀ incumbent, s.incumbent = some incumbent →
      (checkIncumbent h incumbent step).1 = true) :
    execute h s =
      finalizeRelease s (toUint s.contender.release.Spec.TargetStep) step
        (toUint s.contender.release.Spec.TargetStep ==
          toUint (lastStepIndex
            (h.getStrategy s.contender.release.Environment.ShipmentOrder.Strategy))) := by
  rw [execute_of_resolved h s step hrange hstep, checkContender_of_achieved h s step hcont]
  cases hs : s.incumbent with
  | none => simp [hinst]
  | some incumbent =>
    simp [hinst, checkIncumbent_of_achieved h incumbent step (hinc incumbent hs)]

/-- The last-step test of `execute`, for a strategy of `N ≥ 1` steps. -/
theorem isLastStep_eq (strategy : Strategy) (targetStep : Int) (hrange : inIntRange targetStep)
    (N : Nat) (hlen : strategy.Spec.Steps.length = N) (hN : 1 ≤ N)
    (hmax : (N : Int) ≤ 2 ^ 63) :
    (toUint targetStep == toUint (lastStepIndex strategy)) = decide (targetStep = (N : Int) - 1) := by
  have hlast : lastStepIndex strategy = (N : Int) - 1 := by
    unfold lastStepIndex
    simp only [hlen]
    split <;> omega
  have hr : inIntRange ((N : Int) - 1) := by
    unfold inIntRange
    constructor <;> norm_num at hmax ⊢ <;> omega
  rw [hlast]
  by_cases heq : targetStep = (N : Int) - 1
  · simp [heq]
  · have hne : toUint targetStep ≠ toUint ((N : Int) - 1) := fun hh =>
      heq ((toUint_inj _ _ hrange hr).1 hh)
    simp [heq, hne]

/-- C8 (contender finalization): for a strategy of `N ≥ 1` steps, when the step
resolves and all gates pass, (1) `execute` returns, without error, the
contender's status patch followed by at most one patch `rest` for the incumbent;
the contender's patch is present exactly when `uint(TargetStep)` differs from
the contender's `Status.AchievedStep` or the target phase differs from its
`Status.Phase`, it names the contender and carries `AchievedStep =
uint(TargetStep)` and the target phase, which is `Installed` when
`TargetStep = N - 1` and `WaitingForCommand` otherwise; (2) `uint(TargetStep)`
is `TargetStep` for a non-negative target step; (3) with two steps, target
step 0, no incumbent and a contender status other than
`{0, WaitingForCommand}`, the result is exactly one status patch
`{AchievedStep: 0, Phase: WaitingForCommand}` for the contender. -/
theorem execute_finalize_contender (h : Helpers) (s : Executor) (step : StrategyStep)
    (hrange : inIntRange s.contender.release.Spec.TargetStep)
    (hstep : h.getStrategyStep
      (h.getStrategy s.contender.release.Environment.ShipmentOrder.Strategy)
      s.contender.release.Spec.TargetStep = .ok step)
    (hinst : h.checkInstallation s.contender = true)
    (hcont : (checkContender h s step).1 = true)
    (hinc : ∀ incumbent, s.incumbent = some incumbent →
      (checkIncumbent h incumbent step).1 = true)
    (N : Nat)
    (hlen : (h.getStrategy
      s.contender.release.Environment.ShipmentOrder.Strategy).Spec.Steps.length = N)
    (hN : 1 ≤ N) (hmax : (N : Int) ≤ 2 ^ 63) :
    (∃ rest : List ExecutorResult,
      execute h s =
        ((if toUint s.contender.release.Spec.TargetStep
                ≠ s.contender.release.Status.AchievedStep ∨
              (if s.contender.release.Spec.TargetStep = (N : Int) - 1
                then ReleasePhaseInstalled else ReleasePhaseWaitingForCommand)
                ≠ s.contender.release.Status.Phase then
            [ExecutorResult.ReleaseUpdateResult
              ⟨toUint s.contender.release.Spec.TargetStep,
                if s.contender.release.Spec.TargetStep = (N : Int) - 1
                  then ReleasePhaseInstalled else ReleasePhaseWaitingForCommand⟩
              s.contender.release.Name]
          else []) ++ rest, none) ∧
      (s.incumbent = none → rest = []) ∧
      (∀ incumbent, s.incumbent = some incumbent →
        rest = [] ∨
        ∃ phase, rest =
          [ExecutorResult.ReleaseUpdateResult
            ⟨incumbent.release.Status.AchievedStep, phase⟩ incumbent.release.Name])) ∧
    (0 ≤ s.contender.release.Spec.TargetStep →
      ((toUint s.contender.release.Spec.TargetStep : Nat) : Int)
        = s.contender.release.Spec.TargetStep) ∧
    (N = 2 → s.contender.release.Spec.TargetStep = 0 → s.incumbent = none →
      s.contender.release.Status ≠ ⟨0, ReleasePhaseWaitingForCommand⟩ →
      execute h s =
        ([ExecutorResult.ReleaseUpdateResult ⟨0, ReleasePhaseWaitingForCommand⟩
          s.contender.release.Name], none)) := by
  have hexec := execute_of_gates h s step hrange hstep hinst hcont hinc
  rw [isLastStep_eq _ _ hrange N hlen hN hmax, finalizeRelease_eq] at hexec
  simp only [decide_eq_true_eq] at hexec
  refine ⟨?_, ?_, ?_⟩
  · refine ⟨(match s.incumbent with
        | some incumbent =>
          if (if s.contender.release.Spec.TargetStep = (N : Int) - 1
                then ReleasePhaseSuperseded else ReleasePhaseInstalled)
              ≠ incumbent.release.Status.Phase then
            [ExecutorResult.ReleaseUpdateResult
              ⟨incumbent.release.Status.AchievedStep,
                if s.contender.release.Spec.TargetStep = (N : Int) - 1
                  then ReleasePhaseSuperseded else ReleasePhaseInstalled⟩
              incumbent.release.Name]
          else []
        | none => []), hexec, ?_, ?_⟩
    · intro hnone
      simp [hnone]
    · intro incumbent hsome
      simp only [hsome]
      by_cases hp : (if s.contender.release.Spec.TargetStep = (N : Int) - 1
                then ReleasePhaseSuperseded else ReleasePhaseInstalled)
              ≠ incumbent.release.Status.Phase
      · right; exact ⟨_, if_pos hp⟩
      · left; exact if_neg hp
  · intro h0
    exact toUint_of_nonneg _ h0 hrange
  · intro hN2 hts hnone hstatus
    rw [hexec]
    have h0 : toUint 0 = 0 := by decide
    have hst : ¬ (0 = s.contender.release.Status.AchievedStep ∧
        ReleasePhaseWaitingForCommand = s.contender.release.Status.Phase) := by
      rintro ⟨h1, h2⟩
      apply hstatus
      cases hs : s.contender.release.Status with
      | mk a p =>
        rw [hs] at h1 h2
        simp only at h1 h2
        rw [← h1, ← h2]
    subst hN2
    simp only [hts, hnone, h0]
    have hne : ¬ ((0 : Int) = ((2 : Nat) : Int) - 1) := by norm_num
    simp only [hne, if_false, List.append_nil]
    rw [if_pos]
    by_contra hcon
    apply hst
    constructor
    · by_contra h1; exact hcon (Or.inl h1)
    · by_contra h2; exact hcon (Or.inr h2)

/-- Witness for C8: the contender has reached step 0 of the two step strategy,
there is no incumbent and its status is still empty. -/
theorem execute_finalize_contender_witness :
    inIntRange (0 : Int) ∧
    (checkContender fixtureHelpers
      { contender := mkInfo "new" 0 ⟨0, ""⟩ "Installed" 50 50 50 50, incumbent := none }
      step0).1 = true ∧
    execute fixtureHelpers
      { contender := mkInfo "new" 0 ⟨0, ""⟩ "Installed" 50 50 50 50, incumbent := none }
      = ([.ReleaseUpdateResult ⟨0, "WaitingForCommand"⟩ "new"], none) :=
  ⟨by decide, by decide,
    (execute_finalize_contender fixtureHelpers
      { contender := mkInfo "new" 0 ⟨0, ""⟩ "Installed" 50 50 50 50, incumbent := none }
      step0 (by decide) rfl (by decide) (by decide) (by intro i hi; simp at hi)
      2 rfl (by decide) (by decide)).2.2 rfl rfl rfl (by decide)⟩

/-- C9 (incumbent finalization and last-step transition): with an incumbent
present, (1) `finalizeRelease` returns the contender's patches (at most one,
each the contender's status patch) followed by the incumbent's status patch,
which is present exactly when the incumbent's current phase differs from its
target phase (`Superseded` on the last step, `Installed` otherwise), names the
incumbent, carries the target phase and keeps the incumbent's `AchievedStep`;
(2) for a strategy of `N ≥ 1` steps, when the step resolves and all gates
pass, `execute` returns exactly these patches, the last step being
`TargetStep = N - 1`: there the contender's phase is `Installed`, the
incumbent's is `Superseded`, and the contender's patch comes first. -/
theorem execute_finalize_incumbent (h : Helpers) (s : Executor) (step : StrategyStep)
    (incumbent : releaseInfo) (hsome : s.incumbent = some incumbent)
    (hrange : inIntRange s.contender.release.Spec.TargetStep)
    (hstep : h.getStrategyStep
      (h.getStrategy s.contender.release.Environment.ShipmentOrder.Strategy)
      s.contender.release.Spec.TargetStep = .ok step)
    (hinst : h.checkInstallation s.contender = true)
    (hcont : (checkContender h s step).1 = true)
    (hinc : (checkIncumbent h incumbent step).1 = true)
    (N : Nat)
    (hlen : (h.getStrategy
      s.contender.release.Environment.ShipmentOrder.Strategy).Spec.Steps.length = N)
    (hN : 1 ≤ N) (hmax : (N : Int) ≤ 2 ^ 63) :
    (∀ (targetStep : Nat) (strategyStep : StrategyStep) (isLastStep : Bool),
      ∃ contenderPatches : List ExecutorResult,
        contenderPatches.length ≤ 1 ∧
        (∀ p ∈ contenderPatches, p =
          ExecutorResult.ReleaseUpdateResult
            ⟨targetStep,
              if isLastStep then ReleasePhaseInstalled else ReleasePhaseWaitingForCommand⟩
            s.contender.release.Name) ∧
        finalizeRelease s targetStep strategyStep isLastStep =
          (contenderPatches ++
            (if (if isLastStep then ReleasePhaseSuperseded else ReleasePhaseInstalled)
                ≠ incumbent.release.Status.Phase then
              [ExecutorResult.ReleaseUpdateResult
                ⟨incumbent.release.Status.AchievedStep,
                  if isLastStep then ReleasePhaseSuperseded else ReleasePhaseInstalled⟩
                incumbent.release.Name]
            else []), none)) ∧
    execute h s =
      ((if toUint s.contender.release.Spec.TargetStep
              ≠ s.contender.release.Status.AchievedStep ∨
            (if s.contender.release.Spec.TargetStep = (N : Int) - 1
              then ReleasePhaseInstalled else ReleasePhaseWaitingForCommand)
              ≠ s.contender.release.Status.Phase then
          [ExecutorResult.ReleaseUpdateResult
            ⟨toUint s.contender.release.Spec.TargetStep,
              if s.contender.release.Spec.TargetStep = (N : Int) - 1
                then ReleasePhaseInstalled else ReleasePhaseWaitingForCommand⟩
            s.contender.release.Name]
        else []) ++
        (if (if s.contender.release.Spec.TargetStep = (N : Int) - 1
              then ReleasePhaseSuperseded else ReleasePhaseInstalled)
            ≠ incumbent.release.Status.Phase then
          [ExecutorResult.ReleaseUpdateResult
            ⟨incumbent.release.Status.AchievedStep,
              if s.contender.release.Spec.TargetStep = (N : Int) - 1
                then ReleasePhaseSuperseded else ReleasePhaseInstalled⟩
            incumbent.release.Name]
        else []), none) := by
  constructor
  · intro targetStep strategyStep isLastStep
    refine ⟨(if targetStep ≠ s.contender.release.Status.AchievedStep ∨
            (if isLastStep then ReleasePhaseInstalled else ReleasePhaseWaitingForCommand)
              ≠ s.contender.release.Status.Phase then
          [ExecutorResult.ReleaseUpdateResult
            ⟨targetStep,
              if isLastStep then ReleasePhaseInstalled else ReleasePhaseWaitingForCommand⟩
            s.contender.release.Name]
        else []), ?_, ?_, ?_⟩
    · by_cases hchg : targetStep ≠ s.contender.release.Status.AchievedStep ∨
          (if isLastStep then ReleasePhaseInstalled else ReleasePhaseWaitingForCommand)
            ≠ s.contender.release.Status.Phase
      · rw [if_pos hchg]; simp
      · rw [if_neg hchg]; simp
    · intro p hp
      by_cases hchg : targetStep ≠ s.contender.release.Status.AchievedStep ∨
          (if isLastStep then ReleasePhaseInstalled else ReleasePhaseWaitingForCommand)
            ≠ s.contender.release.Status.Phase
      · rw [if_pos hchg] at hp; simpa using hp
      · rw [if_neg hchg] at hp; simp at hp
    · rw [finalizeRelease_eq, hsome]
  · have hexec := execute_of_gates h s step hrange hstep hinst hcont
      (fun i hi => by rw [hsome] at hi; cases hi; exact hinc)
    rw [isLastStep_eq _ _ hrange N hlen hN hmax, finalizeRelease_eq, hsome] at hexec
    simp only [decide_eq_true_eq] at hexec
    exact hexec

/-- Witness for C9: the last step of the two step strategy with an incumbent
that has been wound down; the contender becomes `Installed`, then the incumbent
`Superseded`. -/
theorem execute_finalize_incumbent_witness :
    inIntRange (1 : Int) ∧
    (checkIncumbent fixtureHelpers (mkInfo "old" 1 ⟨1, "Installed"⟩ "Installed" 0 0 0 0)
      step1).1 = true ∧
    execute fixtureHelpers
      { contender := mkInfo "new" 1 ⟨0, "WaitingForCommand"⟩ "Installed" 100 100 100 100,
        incumbent := some (mkInfo "old" 1 ⟨1, "Installed"⟩ "Installed" 0 0 0 0) }
      = ([.ReleaseUpdateResult ⟨1, "Installed"⟩ "new",
          .ReleaseUpdateResult ⟨1, "Superseded"⟩ "old"], none) :=
  ⟨by decide, by decide,
    (execute_finalize_incumbent fixtureHelpers
      { contender := mkInfo "new" 1 ⟨0, "WaitingForCommand"⟩ "Installed" 100 100 100 100,
        incumbent := some (mkInfo "old" 1 ⟨1, "Installed"⟩ "Installed" 0 0 0 0) }
      step1 (mkInfo "old" 1 ⟨1, "Installed"⟩ "Installed" 0 0 0 0) rfl
      (by decide) rfl (by decide) (by decide) (by decide)
      2 rfl (by decide) (by decide)).2.trans (by decide)⟩

end Shipper

namespace Shipper

/-! ## The `AchievedStep` carried by status patches -/

/-- The contender check never produces a status patch. -/
theorem checkContender_no_status (h : Helpers) (s : Executor) (step : StrategyStep) :
    ∀ p ∈ (checkContender h s step).2.1, p.isReleaseUpdate = false := by
  rcases checkContender_cases h s step with ⟨e, hc⟩ | hc | ⟨n, hc⟩ | ⟨n, hc⟩ | hc <;>
    rw [hc] <;> simp [ExecutorResult.isReleaseUpdate]

/-- The incumbent check never produces a status patch. -/
theorem checkIncumbent_no_status (h : Helpers) (incumbent : releaseInfo) (step : StrategyStep) :
    ∀ p ∈ (checkIncumbent h incumbent step).2.1, p.isReleaseUpdate = false := by
  rcases checkIncumbent_cases h incumbent step with ⟨e, hc⟩ | hc | ⟨n, hc⟩ | ⟨n, hc⟩ | hc <;>
    rw [hc] <;> simp [ExecutorResult.isReleaseUpdate]

/-- Status patches in the result of `execute` come from `finalizeRelease`,
called with `uint(TargetStep)`. -/
theorem execute_status_source (h : Helpers) (s : Executor) :
    (∀ p ∈ (execute h s).1, p.isReleaseUpdate = false) ∨
    ∃ step isLastStep, execute h s =
      finalizeRelease s (toUint s.contender.release.Spec.TargetStep) step isLastStep := by
  unfold execute
  simp only
  split
  · left; simp
  · rename_i step hstep
    split
    · left; simp
    · split
      · left; simp
      · rename_i patches hc
        left
        have hno := checkContender_no_status h s step
        rw [hc] at hno
        exact hno
      · split
        · rename_i result hgate
          left
          split at hgate
          · rename_i incumbent hsome
            split at hgate
            · simp only [Option.some.injEq] at hgate
              subst hgate
              simp
            · rename_i incumbentPatches hi
              simp only [Option.some.injEq] at hgate
              subst hgate
              have hno := checkIncumbent_no_status h incumbent step
              rw [hi] at hno
              exact hno
            · simp at hgate
          · simp at hgate
        · right
          refine ⟨step, toUint s.contender.release.Spec.TargetStep ==
            toUint (lastStepIndex
              (h.getStrategy s.contender.release.Environment.ShipmentOrder.Strategy)), ?_⟩
          simp [finalizeRelease]

/-- C10, as stated, fails: a contender whose status reports step 1 and whose
target step is 0 passes all gates and receives a status patch with
`AchievedStep` 0, below its current 1. -/
theorem execute_status_steps_counterexample :
    execute fixtureHelpers
      { contender := mkInfo "new" 0 ⟨1, "WaitingForCommand"⟩ "Installed" 50 50 50 50,
        incumbent := none }
      = ([.ReleaseUpdateResult ⟨0, "WaitingForCommand"⟩ "new"], none) ∧
    (mkInfo "new" 0 ⟨1, "WaitingForCommand"⟩ "Installed" 50 50 50 50).release.Name = "new" ∧
    (0 : Nat) <
      (mkInfo "new" 0 ⟨1, "WaitingForCommand"⟩ "Installed" 50 50 50 50).release.Status.AchievedStep :=
  ⟨by decide, by decide, by decide⟩

/-- C10 (amended): (1) every status patch that `execute` emits either names the
contender and carries `AchievedStep = uint(TargetStep)`, or names the incumbent
and carries the incumbent's current `AchievedStep`; (2) hence, when the
contender's `uint(TargetStep)` is not below its current `Status.AchievedStep`,
every emitted status patch carries an `AchievedStep` greater than or equal to
the current one of the contender or incumbent it names. -/
theorem execute_status_steps (h : Helpers) (s : Executor) :
    (∀ status name, ExecutorResult.ReleaseUpdateResult status name ∈ (execute h s).1 →
      (name = s.contender.release.Name ∧
        status.AchievedStep = toUint s.contender.release.Spec.TargetStep) ∨
      (∃ incumbent, s.incumbent = some incumbent ∧ name = incumbent.release.Name ∧
        status.AchievedStep = incumbent.release.Status.AchievedStep)) ∧
    (s.contender.release.Status.AchievedStep ≤ toUint s.contender.release.Spec.TargetStep →
      ∀ status name, ExecutorResult.ReleaseUpdateResult status name ∈ (execute h s).1 →
        (name = s.contender.release.Name ∧
          s.contender.release.Status.AchievedStep ≤ status.AchievedStep) ∨
        (∃ incumbent, s.incumbent = some incumbent ∧ name = incumbent.release.Name ∧
          incumbent.release.Status.AchievedStep ≤ status.AchievedStep)) := by
  have hmain : ∀ status name,
      ExecutorResult.ReleaseUpdateResult status name ∈ (execute h s).1 →
      (name = s.contender.release.Name ∧
        status.AchievedStep = toUint s.contender.release.Spec.TargetStep) ∨
      (∃ incumbent, s.incumbent = some incumbent ∧ name = incumbent.release.Name ∧
        status.AchievedStep = incumbent.release.Status.AchievedStep) := by
    intro status name hmem
    rcases execute_status_source h s with hno | ⟨step, isLastStep, hfin⟩
    · have := hno _ hmem
      simp [ExecutorResult.isReleaseUpdate] at this
    · rw [hfin, finalizeRelease_eq] at hmem
      simp only [List.mem_append] at hmem
      rcases hmem with hm | hm
      · left
        by_cases hchg : toUint s.contender.release.Spec.TargetStep
              ≠ s.contender.release.Status.AchievedStep ∨
            (if isLastStep then ReleasePhaseInstalled else ReleasePhaseWaitingForCommand)
              ≠ s.contender.release.Status.Phase
        · rw [if_pos hchg] at hm
          simp only [List.mem_singleton, ExecutorResult.ReleaseUpdateResult.injEq] at hm
          obtain ⟨hst, hn⟩ := hm
          exact ⟨hn, by rw [hst]⟩
        · rw [if_neg hchg] at hm
          simp at hm
      · right
        cases hs : s.incumbent with
        | none => rw [hs] at hm; simp at hm
        | some incumbent =>
          rw [hs] at hm
          simp only at hm
          by_cases hchg : (if isLastStep then ReleasePhaseSuperseded else ReleasePhaseInstalled)
              ≠ incumbent.release.Status.Phase
          · rw [if_pos hchg] at hm
            simp only [List.mem_singleton, ExecutorResult.ReleaseUpdateResult.injEq] at hm
            obtain ⟨hst, hn⟩ := hm
            exact ⟨incumbent, rfl, hn, by rw [hst]⟩
          · rw [if_neg hchg] at hm
            simp at hm
  refine ⟨hmain, ?_⟩
  intro hle status name hmem
  rcases hmain status name hmem with ⟨hn, hst⟩ | ⟨incumbent, hs, hn, hst⟩
  · left; exact ⟨hn, by rw [hst]; exact hle⟩
  · right; exact ⟨incumbent, hs, hn, by rw [hst]⟩

/-- Witness for C10 (amended): on the last step of the two step strategy the
contender moves from step 0 to step 1. -/
theorem execute_status_steps_witness :
    ExecutorResult.ReleaseUpdateResult ⟨1, "Installed"⟩ "new" ∈
      (execute fixtureHelpers
        { contender := mkInfo "new" 1 ⟨0, "WaitingForCommand"⟩ "Installed" 100 100 100 100,
          incumbent := some (mkInfo "old" 1 ⟨1, "Installed"⟩ "Installed" 0 0 0 0) }).1 ∧
    (("new" = "new" ∧ 0 ≤ 1) ∨
      ∃ incumbent, some (mkInfo "old" 1 ⟨1, "Installed"⟩ "Installed" 0 0 0 0) = some incumbent ∧
        "new" = incumbent.release.Name ∧ incumbent.release.Status.AchievedStep ≤ 1) :=
  ⟨by decide,
    (execute_status_steps fixtureHelpers
      { contender := mkInfo "new" 1 ⟨0, "WaitingForCommand"⟩ "Installed" 100 100 100 100,
        incumbent := some (mkInfo "old" 1 ⟨1, "Installed"⟩ "Installed" 0 0 0 0) }).2
      (by decide) ⟨1, "Installed"⟩ "new" (by decide)⟩

end Shipper

namespace Shipper

/-! ## Finalization reaches a fixed point -/

/-- Applying status patches changes nothing but the status of a release. -/
theorem applyStatusUpdates_keeps (patches : List ExecutorResult) (release : Release) :
    (applyStatusUpdates patches release).Name = release.Name ∧
    (applyStatusUpdates patches release).Spec = release.Spec ∧
    (applyStatusUpdates patches release).Environment = release.Environment := by
  unfold applyStatusUpdates
  induction patches generalizing release with
  | nil => simp
  | cons p patches ih =>
    rw [List.foldl_cons]
    obtain ⟨h1, h2, h3⟩ := ih
      (match p with
        | .ReleaseUpdateResult status name =>
          if name = release.Name then { release with Status := status } else release
        | _ => release)
    rw [h1, h2, h3]
    cases p with
    | ReleaseUpdateResult status name => by_cases hn : name = release.Name <;> simp [hn]
    | CapacityTargetOutdatedResult spec name => simp
    | TrafficTargetOutdatedResult spec name => simp

/-- The contender check reads the contender's targets and name only. -/
theorem checkContender_applyPatches (h : Helpers) (s : Executor) (step : StrategyStep)
    (patches : List ExecutorResult) :
    checkContender h (applyPatches patches s) step = checkContender h s step := by
  unfold checkContender applyPatches
  simp only [(applyStatusUpdates_keeps patches s.contender.release).1]

/-- The incumbent check reads the incumbent's targets and name only. -/
theorem checkIncumbent_applyPatches (h : Helpers) (incumbent : releaseInfo) (step : StrategyStep)
    (patches : List ExecutorResult) :
    checkIncumbent h
        { incumbent with release := applyStatusUpdates patches incumbent.release } step =
      checkIncumbent h incumbent step := by
  unfold checkIncumbent
  simp only [(applyStatusUpdates_keeps patches incumbent.release).1]

/-- After the status patches of `finalizeRelease` are applied, `finalizeRelease`
has nothing left to patch. -/
theorem finalizeRelease_applyPatches (s : Executor) (targetStep : Nat) (step : StrategyStep)
    (isLastStep : Bool)
    (hnames : ∀ incumbent, s.incumbent = some incumbent →
      incumbent.release.Name ≠ s.contender.release.Name) :
    finalizeRelease (applyPatches (finalizeRelease s targetStep step isLastStep).1 s)
      targetStep step isLastStep = ([], none) := by
  rw [finalizeRelease_eq s, finalizeRelease_eq]
  cases hs : s.incumbent with
  | none =>
    by_cases hc : targetStep ≠ s.contender.release.Status.AchievedStep ∨
        (if isLastStep then ReleasePhaseInstalled else ReleasePhaseWaitingForCommand)
          ≠ s.contender.release.Status.Phase
    · simp [applyPatches, applyStatusUpdates, hs, hc]
    · have hc2 := hc
      simp only [not_or, not_not] at hc2
      simp [applyPatches, applyStatusUpdates, hs, hc, ← hc2.1, ← hc2.2]
  | some incumbent =>
    have hne := hnames incumbent hs
    by_cases hc : targetStep ≠ s.contender.release.Status.AchievedStep ∨
        (if isLastStep then ReleasePhaseInstalled else ReleasePhaseWaitingForCommand)
          ≠ s.contender.release.Status.Phase <;>
      by_cases hi : (if isLastStep then ReleasePhaseSuperseded else ReleasePhaseInstalled)
          ≠ incumbent.release.Status.Phase
    · simp [applyPatches, applyStatusUpdates, hs, hc, hi, hne, Ne.symm hne]
    · have hi2 := hi
      simp only [not_not] at hi2
      simp [applyPatches, applyStatusUpdates, hs, hc, hi, hne, Ne.symm hne, ← hi2]
    · have hc2 := hc
      simp only [not_or, not_not] at hc2
      simp [applyPatches, applyStatusUpdates, hs, hc, hi, hne, Ne.symm hne, ← hc2.1, ← hc2.2]
    · have hc2 := hc
      have hi2 := hi
      simp only [not_or, not_not] at hc2
      simp only [not_not] at hi2
      simp [applyPatches, applyStatusUpdates, hs, hc, hi, hne, Ne.symm hne, ← hc2.1, ← hc2.2,
        ← hi2]

end Shipper

namespace Shipper

/-- C11 (finalization reaches a fixed point): when the step resolves, all gates
pass and the incumbent, if present, has a name other than the contender's,
(1) for every target step and last-step flag, applying the status patches that
`finalizeRelease` returns to the releases they name and running
`finalizeRelease` again on the otherwise identical snapshot returns the empty
patch list and no error; (2) `execute` returns no error and status patches
only; (3) applying them and running `execute` again returns the empty patch
list and no error. -/
theorem finalize_fixed_point (h : Helpers) (s : Executor) (step : StrategyStep)
    (hrange : inIntRange s.contender.release.Spec.TargetStep)
    (hstep : h.getStrategyStep
      (h.getStrategy s.contender.release.Environment.ShipmentOrder.Strategy)
      s.contender.release.Spec.TargetStep = .ok step)
    (hinst : h.checkInstallation s.contender = true)
    (hcont : (checkContender h s step).1 = true)
    (hinc : ∀ incumbent, s.incumbent = some incumbent →
      (checkIncumbent h incumbent step).1 = true)
    (hnames : ∀ incumbent, s.incumbent = some incumbent →
      incumbent.release.Name ≠ s.contender.release.Name) :
    (∀ (targetStep : Nat) (strategyStep : StrategyStep) (isLastStep : Bool),
      finalizeRelease
        (applyPatches (finalizeRelease s targetStep strategyStep isLastStep).1 s)
        targetStep strategyStep isLastStep = ([], none)) ∧
    (execute h s).2 = none ∧
    (∀ p ∈ (execute h s).1, p.isReleaseUpdate = true) ∧
    execute h (applyPatches (execute h s).1 s) = ([], none) := by
  have hexec := execute_of_gates h s step hrange hstep hinst hcont hinc
  refine ⟨fun targetStep strategyStep isLastStep =>
    finalizeRelease_applyPatches s targetStep strategyStep isLastStep hnames, ?_, ?_, ?_⟩
  · rw [hexec, finalizeRelease_eq]
  · rw [hexec, finalizeRelease_eq]
    have hmem : ∀ (c : Prop) [Decidable c] (x p : ExecutorResult),
        p ∈ (if c then [x] else []) → p = x := by
      intro c _ x p hp
      by_cases hc : c
      · simpa [hc] using hp
      · simp [hc] at hp
    intro p hp
    simp only [List.mem_append] at hp
    rcases hp with hp | hp
    · rw [hmem _ _ _ hp]
      rfl
    · cases hs : s.incumbent with
      | none => simp [hs] at hp
      | some incumbent =>
        simp only [hs] at hp
        rw [hmem _ _ _ hp]
        rfl
  · rw [hexec]
    generalize hP : (finalizeRelease s (toUint s.contender.release.Spec.TargetStep) step
      (toUint s.contender.release.Spec.TargetStep ==
        toUint (lastStepIndex
          (h.getStrategy s.contender.release.Environment.ShipmentOrder.Strategy)))).1 = P
    have hk := applyStatusUpdates_keeps P s.contender.release
    have hspec : (applyPatches P s).contender.release.Spec = s.contender.release.Spec := hk.2.1
    have henv : (applyPatches P s).contender.release.Environment =
        s.contender.release.Environment := hk.2.2
    rw [execute_of_resolved h (applyPatches P s) step (by rw [hspec]; exact hrange)
      (by rw [hspec, henv]; exact hstep)]
    rw [checkContender_applyPatches, checkContender_of_achieved h s step hcont, hspec, henv]
    by_cases hi : h.checkInstallation (applyPatches P s).contender = true
    · have hfin := finalizeRelease_applyPatches s (toUint s.contender.release.Spec.TargetStep)
        step (toUint s.contender.release.Spec.TargetStep ==
          toUint (lastStepIndex
            (h.getStrategy s.contender.release.Environment.ShipmentOrder.Strategy))) hnames
      rw [hP] at hfin
      cases hs : s.incumbent with
      | none =>
        have hnone : (applyPatches P s).incumbent = none := by simp [applyPatches, hs]
        simp only [hi, hnone, hfin]
        rfl
      | some incumbent =>
        have hsome : (applyPatches P s).incumbent =
            some { incumbent with release := applyStatusUpdates P incumbent.release } := by
          simp [applyPatches, hs]
        simp only [hi, hsome, checkIncumbent_applyPatches,
          checkIncumbent_of_achieved h incumbent step (hinc incumbent hs), hfin]
        rfl
    · simp [hi]

/-- Witness for C11: the last step of the two step strategy with an incumbent.
The first run returns the two status patches; on the snapshot with both
applied the second run returns nothing. -/
theorem finalize_fixed_point_witness :
    inIntRange (1 : Int) ∧
    (execute fixtureHelpers
      { contender := mkInfo "new" 1 ⟨0, "WaitingForCommand"⟩ "Installed" 100 100 100 100,
        incumbent := some (mkInfo "old" 1 ⟨1, "Installed"⟩ "Installed" 0 0 0 0) }).1 =
      [.ReleaseUpdateResult ⟨1, "Installed"⟩ "new",
        .ReleaseUpdateResult ⟨1, "Superseded"⟩ "old"] ∧
    applyPatches
      [.ReleaseUpdateResult ⟨1, "Installed"⟩ "new", .ReleaseUpdateResult ⟨1, "Superseded"⟩ "old"]
      { contender := mkInfo "new" 1 ⟨0, "WaitingForCommand"⟩ "Installed" 100 100 100 100,
        incumbent := some (mkInfo "old" 1 ⟨1, "Installed"⟩ "Installed" 0 0 0 0) } =
      { contender := mkInfo "new" 1 ⟨1, "Installed"⟩ "Installed" 100 100 100 100,
        incumbent := some (mkInfo "old" 1 ⟨1, "Superseded"⟩ "Installed" 0 0 0 0) } ∧
    execute fixtureHelpers
      (applyPatches
        (execute fixtureHelpers
          { contender := mkInfo "new" 1 ⟨0, "WaitingForCommand"⟩ "Installed" 100 100 100 100,
            incumbent := some (mkInfo "old" 1 ⟨1, "Installed"⟩ "Installed" 0 0 0 0) }).1
        { contender := mkInfo "new" 1 ⟨0, "WaitingForCommand"⟩ "Installed" 100 100 100 100,
          incumbent := some (mkInfo "old" 1 ⟨1, "Installed"⟩ "Installed" 0 0 0 0) }) =
      ([], none) :=
  ⟨by decide, by decide, by decide,
    (finalize_fixed_point fixtureHelpers
      { contender := mkInfo "new" 1 ⟨0, "WaitingForCommand"⟩ "Installed" 100 100 100 100,
        incumbent := some (mkInfo "old" 1 ⟨1, "Installed"⟩ "Installed" 0 0 0 0) }
      step1 (by decide) rfl (by decide) (by decide)
      (fun incumbent hsome => by cases hsome; decide)
      (fun incumbent hsome => by cases hsome; decide)).2.2.2⟩

end Shipper

namespace Shipper.Cmd

/-! ## `sort.Strings` and the annotation read -/

/-- The comparison `stringLess` is the lexicographic order of lists of
characters. -/
theorem stringLess_iff (a b : List Char) : stringLess a b = true ↔ a < b := by
  induction a generalizing b with
  | nil =>
    cases b with
    | nil =>
      simp only [stringLess, Bool.false_eq_true, false_iff]
      exact lt_irrefl _
    | cons y ys =>
      simp only [stringLess, true_iff]
      exact List.Lex.nil
  | cons x xs ih =>
    cases b with
    | nil =>
      simp only [stringLess, Bool.false_eq_true, false_iff]
      intro hlt
      cases hlt
    | cons y ys =>
      have hxy : x.toNat < y.toNat ↔ x < y := Iff.rfl
      have hyx : y.toNat < x.toNat ↔ y < x := Iff.rfl
      unfold stringLess
      by_cases h1 : x < y
      · rw [if_pos (hxy.2 h1)]
        exact ⟨fun _ => List.Lex.rel h1, fun _ => rfl⟩
      · rw [if_neg (fun hh => h1 (hxy.1 hh))]
        by_cases h2 : y < x
        · rw [if_pos (hyx.2 h2)]
          simp only [Bool.false_eq_true, false_iff]
          intro hlt
          cases hlt with
          | cons _ => exact lt_irrefl _ h2
          | rel hh => exact h1 hh
        · rw [if_neg (fun hh => h2 (hyx.1 hh)), ih ys]
          have heq : x = y := le_antisymm (not_lt.1 h2) (not_lt.1 h1)
          subst heq
          constructor
          · intro hlt
            exact List.Lex.cons hlt
          · intro hlt
            cases hlt with
            | cons hh => exact hh
            | rel hh => exact absurd hh h1

/-- The comparison `stringLess` decides the order of strings. -/
theorem stringLess_eq_false_iff (a b : String) :
    stringLess b.toList a.toList = false ↔ a ≤ b := by
  rw [← not_lt, String.lt_iff_toList_lt, ← stringLess_iff]
  simp

/-- The insertion of `sort.Strings` is the ordered insertion of the library. -/
theorem insertString_eq (x : String) (ys : List String) :
    insertString x ys = List.orderedInsert (fun a b : String => a ≤ b) x ys := by
  induction ys with
  | nil => rfl
  | cons y ys ih =>
    unfold insertString
    rw [List.orderedInsert]
    by_cases hle : x ≤ y
    · rw [if_pos hle, if_neg]
      rw [(stringLess_eq_false_iff x y).2 hle]
      simp
    · have hlt : stringLess y.toList x.toList = true := by
        by_contra hh
        exact hle ((stringLess_eq_false_iff x y).1 (by simpa using hh))
      rw [if_neg hle, if_pos hlt, ih]

/-- The function `sortStrings` is the insertion sort of the library under the
order of strings. -/
theorem sortStrings_eq (l : List String) :
    sortStrings l = l.insertionSort (fun a b : String => a ≤ b) := by
  induction l with
  | nil => rfl
  | cons x xs ih =>
    unfold sortStrings
    rw [List.insertionSort, insertString_eq, ih]

/-- Every sorted permutation of a list of strings is what `sortStrings`
returns. -/
theorem eq_sortStrings_of_sorted (l sorted : List String) (hperm : sorted.Perm l)
    (hsorted : sorted.Pairwise (fun a b : String => a ≤ b)) : sortStrings l = sorted := by
  rw [sortStrings_eq]
  exact List.eq_of_perm_of_sorted
    ((List.perm_insertionSort (fun a b : String => a ≤ b) l).trans hperm.symm)
    (List.sorted_insertionSort (fun a b : String => a ≤ b) l) hsorted

/-- The map read `rel.Annotations[key]` is the value bound to the key, or the
empty string. -/
theorem annotation_eq (c : Clients) (rel : Release) :
    rel.annotation c.ReleaseClustersAnnotation = specAnnotation c rel := by
  unfold Release.annotation specAnnotation
  cases rel.Annotations.lookup c.ReleaseClustersAnnotation <;> rfl

/-! ## The classification of `collectReleases` -/

/-- One iteration appends to the delete list exactly when the delete condition
of the specification holds. -/
theorem collectRelease_deleteReleases (c : Clients) (acc : Collected) (rel : Release) :
    (collectRelease c acc rel).deleteReleases =
      acc.deleteReleases ++ (if specDelete c rel then [specDeleteEntry c rel] else []) := by
  unfold collectRelease specDelete specDeleteEntry stringsJoin
  cases hf : c.FilterSelectedClusters (c.GetSelectedClusters rel) c.clusters with
  | nil =>
    cases hc : c.IsContender rel with
    | error err => simp
    | ok isContender => cases isContender <;> simp
  | cons x xs =>
    simp only [List.length_cons, gt_iff_lt, Nat.zero_lt_succ, if_true]
    split <;> simp

/-- One iteration appends to the update list exactly when the update condition
of the specification holds. -/
theorem collectRelease_updateAnnotations (c : Clients) (acc : Collected) (rel : Release) :
    (collectRelease c acc rel).updateAnnotations =
      acc.updateAnnotations ++ (if specUpdate c rel then [specUpdateEntry c rel] else []) := by
  unfold collectRelease specUpdate specUpdateEntry specRemaining stringsJoin
  simp only [annotation_eq, sortStrings_eq]
  cases hf : c.FilterSelectedClusters (c.GetSelectedClusters rel) c.clusters with
  | nil =>
    cases hc : c.IsContender rel with
    | error err => simp
    | ok isContender => cases isContender <;> simp
  | cons x xs =>
    simp only [List.length_cons, gt_iff_lt, Nat.zero_lt_succ, if_true]
    split <;> simp_all

/-- The inner loop over the releases of one namespace. -/
theorem foldl_collectRelease (c : Clients) (rels : List Release) (acc : Collected) :
    (rels.foldl (collectRelease c) acc).deleteReleases =
        acc.deleteReleases ++ (rels.filter (specDelete c)).map (specDeleteEntry c) ∧
      (rels.foldl (collectRelease c) acc).updateAnnotations =
        acc.updateAnnotations ++ (rels.filter (specUpdate c)).map (specUpdateEntry c) := by
  induction rels generalizing acc with
  | nil => simp
  | cons rel rels ih =>
    rw [List.foldl_cons]
    obtain ⟨hd, hu⟩ := ih (collectRelease c acc rel)
    rw [hd, hu, collectRelease_deleteReleases, collectRelease_updateAnnotations]
    constructor
    · by_cases h : specDelete c rel = true <;> simp [List.filter_cons, h]
    · by_cases h : specUpdate c rel = true <;> simp [List.filter_cons, h]

/-- The outer loop over the namespaces. -/
theorem foldl_collectNamespace (c : Clients) (nss : List String) (acc : Collected) :
    (nss.foldl (collectNamespace c) acc).deleteReleases =
        acc.deleteReleases ++
          ((examinedReleases c nss).filter (specDelete c)).map (specDeleteEntry c) ∧
      (nss.foldl (collectNamespace c) acc).updateAnnotations =
        acc.updateAnnotations ++
          ((examinedReleases c nss).filter (specUpdate c)).map (specUpdateEntry c) := by
  induction nss generalizing acc with
  | nil => simp [examinedReleases]
  | cons ns nss ih =>
    rw [List.foldl_cons]
    obtain ⟨hd, hu⟩ := ih (collectNamespace c acc ns)
    rw [hd, hu]
    unfold collectNamespace
    cases hl : c.listReleases ns with
    | error err => simp [examinedReleases, hl]
    | ok releaseList =>
      obtain ⟨hd1, hu1⟩ := foldl_collectRelease c releaseList acc
      simp only [hd1, hu1]
      simp [examinedReleases, hl]

/-- C12 (decommission classification): (1) every iteration of the inner loop of
`collectReleases` appends the release's entry to the delete list exactly when
none of its selected clusters remains after filtering and the contender lookup
succeeds and reports that it is not a contender, and appends its entry to the
update list exactly when at least one cluster remains and the sorted,
comma-joined remaining clusters differ from the current clusters annotation;
otherwise the lists are unchanged; (2) no release satisfies both conditions;
(3) a release that keeps at least one cluster does not satisfy the delete
condition; (4) when the namespace listing succeeds, the delete list and the
update list returned by `collectReleases` are the entries of the examined
releases that satisfy the respective condition, in order; (5) for a release
that keeps at least one cluster, for every list `sorted` that is a permutation
of the remaining clusters in increasing order and for the `value` its
annotations bind to the clusters key (the empty string when there is none), the
update list is unchanged when `sorted` joined by commas equals `value`, and
otherwise grows by the entry that holds the joined selected clusters and the
joined `sorted`; (6) what `sortStrings` returns is a permutation of its argument
in increasing order. -/
theorem collectReleases_classification (c : Clients) :
    (∀ acc rel,
      (collectRelease c acc rel).deleteReleases =
          acc.deleteReleases ++ (if specDelete c rel then [specDeleteEntry c rel] else []) ∧
        (collectRelease c acc rel).updateAnnotations =
          acc.updateAnnotations ++ (if specUpdate c rel then [specUpdateEntry c rel] else [])) ∧
    (∀ rel, ¬ (specDelete c rel = true ∧ specUpdate c rel = true)) ∧
    (∀ rel, 0 < (c.FilterSelectedClusters (c.GetSelectedClusters rel) c.clusters).length →
      specDelete c rel = false) ∧
    (∀ namespaceList, c.listNamespaces = .ok namespaceList →
      (collectReleases c).1 =
          ((examinedReleases c namespaceList).filter (specDelete c)).map (specDeleteEntry c) ∧
        (collectReleases c).2.1 =
          ((examinedReleases c namespaceList).filter (specUpdate c)).map (specUpdateEntry c)) ∧
    (∀ (acc : Collected) (rel : Release) (sorted : List String) (value : String),
      c.FilterSelectedClusters (c.GetSelectedClusters rel) c.clusters ≠ [] →
      sorted.Perm (c.FilterSelectedClusters (c.GetSelectedClusters rel) c.clusters) →
      sorted.Pairwise (fun a b : String => a ≤ b) →
      (rel.Annotations.lookup c.ReleaseClustersAnnotation).getD "" = value →
      (collectRelease c acc rel).deleteReleases = acc.deleteReleases ∧
      (collectRelease c acc rel).updateAnnotations =
        if String.intercalate "," sorted = value then acc.updateAnnotations
        else
          acc.updateAnnotations ++
            [{ OldClusterAnnotation := String.intercalate "," (c.GetSelectedClusters rel)
               FilteredClusterAnnotation := String.intercalate "," sorted
               Namespace := rel.Namespace
               Name := rel.Name }]) ∧
    (∀ l : List String,
      (sortStrings l).Perm l ∧ (sortStrings l).Pairwise (fun a b : String => a ≤ b)) := by
  refine ⟨fun acc rel =>
    ⟨collectRelease_deleteReleases c acc rel, collectRelease_updateAnnotations c acc rel⟩,
    ?_, ?_, ?_, ?_, ?_⟩
  · intro rel
    unfold specDelete specUpdate
    cases c.FilterSelectedClusters (c.GetSelectedClusters rel) c.clusters <;> simp
  · intro rel hlen
    unfold specDelete
    cases hf : c.FilterSelectedClusters (c.GetSelectedClusters rel) c.clusters with
    | nil => simp [hf] at hlen
    | cons x xs => simp
  · intro namespaceList hns
    obtain ⟨hd, hu⟩ := foldl_collectNamespace c namespaceList ⟨[], [], []⟩
    unfold collectReleases
    rw [hns]
    simp only [hd, hu, List.nil_append, and_self]
  · intro acc rel sorted value hne hperm hsorted hvalue
    have hsort := eq_sortStrings_of_sorted _ sorted hperm hsorted
    have hlen : (c.FilterSelectedClusters (c.GetSelectedClusters rel) c.clusters).length > 0 :=
      List.length_pos.2 hne
    unfold collectRelease
    simp only [hlen, if_true, hsort, stringsJoin, Release.annotation, hvalue]
    by_cases heq : String.intercalate "," sorted = value
    · simp only [heq, if_true, and_self]
    · simp only [heq, if_false, and_self]
  · intro l
    rw [sortStrings_eq]
    exact ⟨List.perm_insertionSort _ l, List.sorted_insertionSort _ l⟩

/-- Witness for C12.  In `exampleClients`, of three releases scheduled on the
decommissioned cluster `old`, release `a` is deleted, the contender `b` is kept,
and release `c`, which is also scheduled on `new`, has its annotation updated.
In `sortingClients` the remaining clusters `b`, `a` are sorted before the
comparison: release `d` (annotated `b,a`) and release `f` (annotated `b,old,a`)
are listed for an update to `a,b`, while release `e` and release `g` (both
annotated `a,b`) are skipped. -/
theorem collectReleases_classification_witness :
    exampleClients.listNamespaces = .ok ["ns"] ∧
    (collectReleases exampleClients).1 =
      ((examinedReleases exampleClients ["ns"]).filter (specDelete exampleClients)).map
        (specDeleteEntry exampleClients) ∧
    (collectReleases exampleClients).1 = [⟨"old", "", "ns", "a"⟩] ∧
    (collectReleases exampleClients).2.1 = [⟨"old,new", "new", "ns", "c"⟩] ∧
    (collectReleases sortingClients).1 = [] ∧
    (collectReleases sortingClients).2.1 =
      [⟨"b,a", "a,b", "ns", "d"⟩, ⟨"b,old,a", "a,b", "ns", "f"⟩] ∧
    sortingClients.FilterSelectedClusters (sortingClients.GetSelectedClusters releaseG)
      sortingClients.clusters = ["b", "a"] ∧
    (collectRelease sortingClients ⟨[], [], []⟩ releaseG).updateAnnotations = [] :=
  ⟨rfl,
    ((collectReleases_classification exampleClients).2.2.2.1 ["ns"] rfl).1,
    by decide, by decide, by decide, by decide, by decide,
    (((collectReleases_classification sortingClients).2.2.2.2.1 ⟨[], [], []⟩ releaseG
      ["a", "b"] "a,b" (by decide) (List.Perm.swap "b" "a" [])
      (List.pairwise_pair.2 ((stringLess_eq_false_iff "a" "b").1 (by decide)))
      (by decide)).2).trans (by decide)⟩

/-! ## The error of `collectReleases` -/

/-- When every release listing and every contender lookup succeeds, the loops
collect no error text. -/
theorem foldl_collectRelease_errList (c : Clients) (isContender : Release → Bool)
    (hc : c.IsContender = fun rel => .ok (isContender rel))
    (rels : List Release) (acc : Collected) :
    (rels.foldl (collectRelease c) acc).errList = acc.errList := by
  induction rels generalizing acc with
  | nil => rfl
  | cons rel rels ih =>
    rw [List.foldl_cons, ih]
    unfold collectRelease
    simp only [hc]
    split
    · split <;> rfl
    · split <;> rfl

/-- The same for the loop over the namespaces. -/
theorem foldl_collectNamespace_errList (c : Clients) (isContender : Release → Bool)
    (releases : String → List Release)
    (hc : c.IsContender = fun rel => .ok (isContender rel))
    (hl : c.listReleases = fun ns => .ok (releases ns))
    (nss : List String) (acc : Collected) :
    (nss.foldl (collectNamespace c) acc).errList = acc.errList := by
  induction nss generalizing acc with
  | nil => rfl
  | cons ns nss ih =>
    rw [List.foldl_cons, ih]
    unfold collectNamespace
    simp only [hl]
    exact foldl_collectRelease_errList c isContender hc _ acc

/-- C13 (empty error aggregation): `collectReleases` never returns a nil error.
(1) For every input its error is non-nil.  (2) When the namespace listing,
every release listing and every contender lookup succeed, the error it returns
is `fmt.Errorf("")`, built from the empty list of sub-errors.  (3) With both
clients built, `runCleanCommand` returns the error of `collectReleases` and
prints nothing: `reviewActions` is never reached. -/
theorem collectReleases_error_never_nil :
    (∀ c : Clients, (collectReleases c).2.2 ≠ none) ∧
    (∀ (clusters : List String) (key : String) (namespaceList : List String)
        (releases : String → List Release) (selected : Release → List String)
        (filter : List String → List String → List String) (isContender : Release → Bool),
      (collectReleases
        { clusters := clusters
          ReleaseClustersAnnotation := key
          listNamespaces := .ok namespaceList
          listReleases := fun ns => .ok (releases ns)
          GetSelectedClusters := selected
          FilterSelectedClusters := filter
          IsContender := fun rel => .ok (isContender rel) }).2.2 = some (.Errorf "")) ∧
    (∀ (c : Clients) (confirm : Except String Bool),
      runCleanCommand none none c confirm = ([], (collectReleases c).2.2)) ∧
    collectReleases emptyClients = ([], [], some (.Errorf "")) ∧
    runCleanCommand none none emptyClients (.ok true) = ([], some (.Errorf "")) := by
  have hne : ∀ c : Clients, (collectReleases c).2.2 ≠ none := by
    intro c
    unfold collectReleases
    cases c.listNamespaces <;> simp
  refine ⟨hne, ?_, ?_, by decide, by decide⟩
  · intro clusters key namespaceList releases selected filter isContender
    unfold collectReleases
    simp only
    rw [foldl_collectNamespace_errList _ isContender releases rfl rfl]
    rfl
  · intro c confirm
    have h := hne c
    unfold runCleanCommand
    rcases hr : collectReleases c with ⟨d, u, e⟩
    rw [hr] at h
    cases e with
    | none => exact absurd rfl h
    | some err => rfl

end Shipper.Cmd

namespace Shipper

/-! ## Negative percentages -/

/-- Conversion `uint(n)` of a negative `int`: `n + 2^64`. -/
theorem toUint_of_neg (n : Int) (hn : inIntRange n) (hneg : n < 0) :
    ((toUint n : Nat) : Int) = n + (2 : Int) ^ 64 := by
  obtain ⟨h1, h2⟩ := hn
  unfold toUint
  norm_num at h1 h2 ⊢
  omega

end Shipper

namespace Shipper

/-- C14 as stated fails: `-9223372036854775809` is a decimal string for a
negative integer, and with it as `ContenderCapacity` (every other percentage
being `50`) `checkContender` returns the range error of `strconv.Atoi`, a
configuration error. -/
theorem negative_percentages_counterexample :
    isDecimalStringFor belowRangeStep.ContenderCapacity (-9223372036854775809) = true ∧
    (-9223372036854775809 : Int) < 0 ∧
    checkContender fixtureHelpers
      { contender := mkInfo "new" 0 ⟨0, ""⟩ "Installed" 0 0 0 0, incumbent := none }
      belowRangeStep =
      (false, [], some (.NumError "Atoi" "-9223372036854775809" .ErrRange)) := by
  decide

/-- C14 (negative percentages), amended: (1) for every step whose
`ContenderCapacity` and `ContenderTraffic` are decimal strings for integers `c`
and `t` within the range of `int`, negative ones and ones above 100 included,
`checkContender` returns no error and its result is that of the capacity check
called with the target `uint(c)` and, when that reports achieved, of the traffic
check called with `uint(t)`; (2) likewise `checkIncumbent` calls the traffic
check with `uint(t)` and then the capacity check with `uint(c)` for the
incumbent's percentages; (3) for a negative `n` within the range of `int`,
`uint(n)` is `n + 2^64`, which exceeds 100; (4) `uint(-1)` is `2^64 - 1`;
(5) a capacity percentage that is a decimal string for an integer outside the
range of `int`, such as one below `-2^63`, makes `checkContender` (respectively
`checkIncumbent`) return the range error of `strconv.Atoi` for that string and
no patch; (6) so does such a traffic percentage when the capacity percentage of
the same check is a decimal string for an integer within the range. -/
theorem negative_percentages (h : Helpers) (s : Executor) (incumbent : releaseInfo)
    (step : StrategyStep) :
    (∀ c t : Int, isDecimalStringFor step.ContenderCapacity c = true →
      isDecimalStringFor step.ContenderTraffic t = true → inIntRange c → inIntRange t →
      (checkContender h s step).2.2 = none ∧
      checkContender h s step =
        match h.checkCapacity s.contender.capacityTarget (toUint c)
            h.contenderCapacityComparison with
        | (false, some newSpec) =>
          (false, [.CapacityTargetOutdatedResult newSpec s.contender.release.Name], none)
        | (false, none) => (false, [], none)
        | (true, _) =>
          match h.checkTraffic s.contender.trafficTarget (toUint t)
              h.contenderTrafficComparison with
          | (false, some newSpec) =>
            (false, [.TrafficTargetOutdatedResult newSpec s.contender.release.Name], none)
          | (false, none) => (false, [], none)
          | (true, _) => (true, [], none)) ∧
    (∀ c t : Int, isDecimalStringFor step.IncumbentCapacity c = true →
      isDecimalStringFor step.IncumbentTraffic t = true → inIntRange c → inIntRange t →
      (checkIncumbent h incumbent step).2.2 = none ∧
      checkIncumbent h incumbent step =
        match h.checkTraffic incumbent.trafficTarget (toUint t)
            h.incumbentTrafficComparison with
        | (false, some newSpec) =>
          (false, [.TrafficTargetOutdatedResult newSpec incumbent.release.Name], none)
        | (false, none) => (false, [], none)
        | (true, _) =>
          match h.checkCapacity incumbent.capacityTarget (toUint c)
              h.incumbentCapacityComparison with
          | (false, some newSpec) =>
            (false, [.CapacityTargetOutdatedResult newSpec incumbent.release.Name], none)
          | (false, none) => (false, [], none)
          | (true, _) => (true, [], none)) ∧
    (∀ n : Int, inIntRange n → n < 0 →
      ((toUint n : Nat) : Int) = n + (2 : Int) ^ 64 ∧ 100 < toUint n) ∧
    toUint (-1) = 2 ^ 64 - 1 ∧
    (∀ n : Int, ¬ inIntRange n →
      (isDecimalStringFor step.ContenderCapacity n = true →
        checkContender h s step =
          (false, [], some (.NumError "Atoi" step.ContenderCapacity .ErrRange))) ∧
      (isDecimalStringFor step.IncumbentCapacity n = true →
        checkIncumbent h incumbent step =
          (false, [], some (.NumError "Atoi" step.IncumbentCapacity .ErrRange)))) ∧
    (∀ c n : Int, inIntRange c → ¬ inIntRange n →
      (isDecimalStringFor step.ContenderCapacity c = true →
        isDecimalStringFor step.ContenderTraffic n = true →
        checkContender h s step =
          (false, [], some (.NumError "Atoi" step.ContenderTraffic .ErrRange))) ∧
      (isDecimalStringFor step.IncumbentCapacity c = true →
        isDecimalStringFor step.IncumbentTraffic n = true →
        checkIncumbent h incumbent step =
          (false, [], some (.NumError "Atoi" step.IncumbentTraffic .ErrRange)))) := by
  refine ⟨?_, ?_, ?_, by decide, ?_, ?_⟩
  · intro c t hc ht hcr htr
    have heq := checkContender_of_parsed h s step c t
      (atoi_of_decimalString _ c hc hcr) (atoi_of_decimalString _ t ht htr)
    refine ⟨?_, heq⟩
    rcases checkContender_cases h s step with ⟨e, hx⟩ | hx | ⟨n, hx⟩ | ⟨n, hx⟩ | hx
    · rw [hx] at heq
      exfalso
      revert heq
      split
      · simp
      · simp
      · split <;> simp
    all_goals rw [hx]
  · intro c t hc ht hcr htr
    have heq := checkIncumbent_of_parsed h incumbent step c t
      (atoi_of_decimalString _ c hc hcr) (atoi_of_decimalString _ t ht htr)
    refine ⟨?_, heq⟩
    rcases checkIncumbent_cases h incumbent step with ⟨e, hx⟩ | hx | ⟨n, hx⟩ | ⟨n, hx⟩ | hx
    · rw [hx] at heq
      exfalso
      revert heq
      split
      · simp
      · simp
      · split <;> simp
    all_goals rw [hx]
  · intro n hn hneg
    have h1 := toUint_of_neg n hn hneg
    obtain ⟨h2, h3⟩ := hn
    norm_num at h1 h2 h3 ⊢
    refine ⟨h1, ?_⟩
    omega
  · intro n hn
    constructor
    · intro hs
      unfold checkContender
      rw [atoi_of_decimalString_out_of_range _ n hs hn]
    · intro hs
      unfold checkIncumbent
      rw [atoi_of_decimalString_out_of_range _ n hs hn]
  · intro c n hc hn
    constructor
    · intro hsc hst
      unfold checkContender
      rw [atoi_of_decimalString _ c hsc hc, atoi_of_decimalString_out_of_range _ n hst hn]
    · intro hsc hst
      unfold checkIncumbent
      rw [atoi_of_decimalString _ c hsc hc, atoi_of_decimalString_out_of_range _ n hst hn]

/-- Witness for C14: with contender capacity `-1`, achieved capacity 0 and
capacity spec 0, `checkContender` returns no error but a capacity patch that
sets `2^64 - 1` replicas, and `execute` returns that patch; with contender
capacity `-2^63 - 1` it returns the range error of `Atoi`. -/
theorem negative_percentages_witness :
    isDecimalStringFor minusOneStep.ContenderCapacity (-1) = true ∧
    isDecimalStringFor minusOneStep.ContenderTraffic 50 = true ∧
    inIntRange (-1) ∧ inIntRange 50 ∧
    checkContender minusOneHelpers
      { contender := mkInfo "new" 0 ⟨0, ""⟩ "Installed" 0 0 0 0, incumbent := none }
      minusOneStep =
      (false, [.CapacityTargetOutdatedResult ⟨[⟨"c1", 18446744073709551615⟩]⟩ "new"], none) ∧
    execute minusOneHelpers
      { contender := mkInfo "new" 0 ⟨0, ""⟩ "Installed" 0 0 0 0, incumbent := none } =
      ([.CapacityTargetOutdatedResult ⟨[⟨"c1", 18446744073709551615⟩]⟩ "new"], none) ∧
    ¬ inIntRange (-9223372036854775809) ∧
    isDecimalStringFor belowRangeStep.ContenderCapacity (-9223372036854775809) = true ∧
    checkContender minusOneHelpers
      { contender := mkInfo "new" 0 ⟨0, ""⟩ "Installed" 0 0 0 0, incumbent := none }
      belowRangeStep =
      (false, [], some (.NumError "Atoi" belowRangeStep.ContenderCapacity .ErrRange)) :=
  ⟨by decide, by decide, by decide, by decide,
    ((negative_percentages minusOneHelpers
      { contender := mkInfo "new" 0 ⟨0, ""⟩ "Installed" 0 0 0 0, incumbent := none }
      (mkInfo "old" 0 ⟨0, ""⟩ "Installed" 0 0 0 0) minusOneStep).1
      (-1) 50 (by decide) (by decide) (by decide) (by decide)).2.trans (by decide),
    by decide, by decide, by decide,
    ((negative_percentages minusOneHelpers
      { contender := mkInfo "new" 0 ⟨0, ""⟩ "Installed" 0 0 0 0, incumbent := none }
      (mkInfo "old" 0 ⟨0, ""⟩ "Installed" 0 0 0 0) belowRangeStep).2.2.2.2.1
      (-9223372036854775809) (by decide)).1 (by decide)⟩

end Shipper
